import Mathlib

/-!
Verification of the AceDataCloud/Roadmap maintenance scripts.

This file gives a shallow embedding of the pure logic of
`scripts/sync_merged_prs_to_daily_updates.py` (the incremental GitHub sync with its
day-partitioned JSON store) and of the small helpers of the snapshot scripts
(`generate_recent_orders.py`, `generate_revenue_snapshot.py`,
`generate_creator_fees_snapshot.py`), and proves the testable properties of the spec
against it.

Modelling conventions:
* Timestamps are UTC epoch seconds (`Int`); Python `datetime` values compare
  chronologically, `timedelta(days=1)` is `86400`, `.date()` is floor division by `86400`,
  and `.date().isoformat()` is the Gregorian civil date string of that day number.
* Python `str` values are Lean `String`s; the Python string operations used by the
  scripts (`strip`, `lower`, `split`, `startswith`, slicing) are re-implemented over the
  code-point list `String.data` so that everything evaluates inside the kernel.
* Network and JSON-parsing library calls are boundaries: their results are inputs of the
  model (`Except Unit _` where an exception may propagate out of them).
* File contents are structured documents, not byte strings; a bucket file that fails
  to read or to validate is `none`.
-/

/-! ## Python string primitives (re-implemented over `String.data`) -/

/-- The characters of a string with leading and trailing whitespace removed. -/
def trimChars (l : List Char) : List Char :=
  ((l.dropWhile Char.isWhitespace).reverse.dropWhile Char.isWhitespace).reverse

/-- Python `str.strip()`. -/
def strTrim (s : String) : String := String.mk (trimChars s.data)

/-- Python `str.lower()`. -/
def strLower (s : String) : String := String.mk (s.data.map Char.toLower)

/-- `pre` is an initial segment of `l` (Python `str.startswith`, on characters). -/
def charsStart : List Char → List Char → Bool
  | [], _ => true
  | _ :: _, [] => false
  | p :: ps, a :: as => p == a && charsStart ps as

/-- Python `s.startswith(pre)`. -/
def strStarts (pre s : String) : Bool := charsStart pre.data s.data

/-- Split a character list at every occurrence of `c` (Python `str.split(c)`). -/
def splitChar (c : Char) : List Char → List (List Char)
  | [] => [[]]
  | a :: as =>
    let rest := splitChar c as
    if a = c then [] :: rest
    else match rest with
      | [] => [[a]]
      | r :: rs => (a :: r) :: rs

/-- Split at the first occurrence of `c` only (Python `str.split(c, 1)` when `c` occurs). -/
def splitFirst (c : Char) : List Char → Option (List Char × List Char)
  | [] => none
  | a :: as =>
    if a = c then some ([], as)
    else match splitFirst c as with
      | none => none
      | some (l, r) => some (a :: l, r)

/-- Python `c in s` for a single character. -/
def strContainsChar (c : Char) (s : String) : Bool := s.data.contains c

/-- Python `message.splitlines()[0]`: the text before the first line terminator. -/
def firstLine (s : String) : String :=
  String.mk (s.data.takeWhile (fun c => !(c == '\n' || c == '\r')))

/-- The decimal number denoted by a digit list (Python `int` on a matched `\d+`). -/
def natOfDigits (l : List Char) : Nat :=
  l.foldl (fun n c => n * 10 + (c.toNat - 48)) 0

/-- Lexicographic order on character lists by code point (Python string `<`). -/
def listLtB : List Char → List Char → Bool
  | [], [] => false
  | [], _ :: _ => true
  | _ :: _, [] => false
  | a :: as, b :: bs =>
    if a.val < b.val then true else if b.val < a.val then false else listLtB as bs

/-- Python `a < b` on strings. -/
def strLtB (a b : String) : Bool := listLtB a.data b.data

/-! ## Calendar (`datetime.date` in UTC) -/

/-- Days since 1970-01-01 of a UTC epoch-second timestamp (`.date()` of a UTC datetime). -/
def dayNumber (ts : Int) : Int := Int.fdiv ts 86400

/-- Gregorian `(year, month, day)` of a days-since-epoch count (the standard
    civil-from-days algorithm, which is the calendar of Python `datetime.date`). -/
def civilFromDays (z0 : Int) : Int × Int × Int :=
  let z := z0 + 719468
  let era : Int := Int.fdiv z 146097
  let doe : Int := z - era * 146097
  let yoe : Int := Int.fdiv (doe - Int.fdiv doe 1460 + Int.fdiv doe 36524 - Int.fdiv doe 146096) 365
  let y : Int := yoe + era * 400
  let doy : Int := doe - (365 * yoe + Int.fdiv yoe 4 - Int.fdiv yoe 100)
  let mp : Int := Int.fdiv (5 * doy + 2) 153
  let d : Int := doy - Int.fdiv (153 * mp + 2) 5 + 1
  let m : Int := if mp < 10 then mp + 3 else mp - 9
  (if m ≤ 2 then y + 1 else y, m, d)

/-- Zero-padded two-digit rendering of a month or day number. -/
def pad2 (n : Int) : String := if n < 10 then "0" ++ toString n else toString n

/-- Zero-padded four-digit rendering of a year number. -/
def pad4 (n : Int) : String :=
  if n < 10 then "000" ++ toString n
  else if n < 100 then "00" ++ toString n
  else if n < 1000 then "0" ++ toString n
  else toString n

/-- `YYYY-MM-DD` rendering of a days-since-epoch count (`date.isoformat()`). -/
def isoDateOfDay (z : Int) : String :=
  let c := civilFromDays z
  pad4 c.1 ++ "-" ++ pad2 c.2.1 ++ "-" ++ pad2 c.2.2

/-- `ts.date().isoformat()` for a UTC timestamp in epoch seconds. -/
def dateIso (ts : Int) : String := isoDateOfDay (dayNumber ts)

/-! ## Generic list helpers used to model Python dict/set/sort idioms -/

/-- Stable insertion into a list sorted descending by an integer key. -/
def insDescBy (key : α → Int) (x : α) : List α → List α
  | [] => [x]
  | y :: ys => if key x < key y then y :: insDescBy key x ys else x :: y :: ys

/-- Stable descending sort by an integer key (Python `list.sort(key=…, reverse=True)`). -/
def sortDescBy (key : α → Int) : List α → List α
  | [] => []
  | x :: xs => insDescBy key x (sortDescBy key xs)

/-- Insertion into a list of strings sorted descending. -/
def insDescStr (x : String) : List String → List String
  | [] => [x]
  | y :: ys => if strLtB x y then y :: insDescStr x ys else x :: y :: ys

/-- Python `sorted(strings, reverse=True)`. -/
def sortDescStr : List String → List String
  | [] => []
  | x :: xs => insDescStr x (sortDescStr xs)

/-- Helper for `dedupF`: drop elements already in `seen`, keep first occurrences. -/
def dedupFAux [DecidableEq α] : List α → List α → List α
  | _, [] => []
  | seen, a :: l => if a ∈ seen then dedupFAux seen l else a :: dedupFAux (a :: seen) l

/-- Deduplicate keeping the first occurrence of each element
    (Python `list(dict.fromkeys(xs))`, and the `seen`-set idiom). -/
def dedupF [DecidableEq α] (l : List α) : List α := dedupFAux [] l

/-- First value bound to `k` in an association list, with a default
    (Python `d.get(k, default)`). -/
def getAssocD (m : List (String × β)) (k : String) (d : β) : β :=
  match m with
  | [] => d
  | (k2, v) :: rest => if k2 = k then v else getAssocD rest k d

/-- First value bound to `k`, if any. -/
def getAssocOpt (m : List (String × β)) (k : String) : Option β :=
  match m with
  | [] => none
  | (k2, v) :: rest => if k2 = k then some v else getAssocOpt rest k

/-- Bind `k` to `v`, replacing the first existing binding (Python `d[k] = v`). -/
def setAssoc (m : List (String × β)) (k : String) (v : β) : List (String × β) :=
  match m with
  | [] => [(k, v)]
  | (k2, v2) :: rest => if k2 = k then (k, v) :: rest else (k2, v2) :: setAssoc rest k v

/-- Append `x` to the group of `k` (Python `d.setdefault(k, []).append(x)`). -/
def addGroup (m : List (String × List β)) (k : String) (x : β) : List (String × List β) :=
  match m with
  | [] => [(k, [x])]
  | (k2, vs) :: rest => if k2 = k then (k2, vs ++ [x]) :: rest else (k2, vs) :: addGroup rest k x

/-! ### Elementary lemmas about the helpers -/

theorem mem_insDescStr {a x : String} {l : List String} :
    a ∈ insDescStr x l ↔ a = x ∨ a ∈ l := by
  induction l with
  | nil => simp [insDescStr]
  | cons y ys ih =>
    simp only [insDescStr]
    split
    · simp only [List.mem_cons, ih]
      tauto
    · simp [List.mem_cons]

theorem mem_sortDescStr {a : String} {l : List String} :
    a ∈ sortDescStr l ↔ a ∈ l := by
  induction l with
  | nil => simp [sortDescStr]
  | cons x xs ih => simp [sortDescStr, mem_insDescStr, ih]

theorem mem_dedupFAux [DecidableEq α] {x : α} :
    ∀ (seen l : List α), x ∈ dedupFAux seen l ↔ x ∈ l ∧ x ∉ seen := by
  intro seen l
  induction l generalizing seen with
  | nil => simp [dedupFAux]
  | cons a as ih =>
    simp only [dedupFAux]
    split
    · rename_i hmem
      rw [ih]
      constructor
      · rintro ⟨h1, h2⟩; exact ⟨List.mem_cons_of_mem _ h1, h2⟩
      · rintro ⟨h1, h2⟩
        rcases List.mem_cons.mp h1 with h | h
        · exact absurd (h ▸ hmem) h2
        · exact ⟨h, h2⟩
    · rename_i hmem
      simp only [List.mem_cons, ih]
      by_cases hxa : x = a
      · subst hxa; tauto
      · tauto

theorem mem_dedupF [DecidableEq α] {x : α} {l : List α} : x ∈ dedupF l ↔ x ∈ l := by
  simp [dedupF, mem_dedupFAux]

theorem nodup_dedupFAux [DecidableEq α] :
    ∀ (seen l : List α), (dedupFAux seen l).Nodup := by
  intro seen l
  induction l generalizing seen with
  | nil => simp [dedupFAux]
  | cons a as ih =>
    simp only [dedupFAux]
    split
    · exact ih seen
    · refine List.nodup_cons.mpr ⟨fun hmem => ?_, ih (a :: seen)⟩
      have := (mem_dedupFAux (a :: seen) as).mp hmem
      exact this.2 (List.mem_cons_self a seen)

theorem nodup_dedupF [DecidableEq α] (l : List α) : (dedupF l).Nodup :=
  nodup_dedupFAux [] l

theorem foldl_max_le_init (l : List Int) : ∀ a : Int, a ≤ l.foldl max a := by
  induction l with
  | nil => intro a; simp
  | cons x xs ih =>
    intro a
    calc a ≤ max a x := le_max_left a x
    _ ≤ xs.foldl max (max a x) := ih (max a x)

/-! ## Data model of `sync_merged_prs_to_daily_updates.py` -/

/-- A stored day-bucket item (`{title, url, tags, summary}`). -/
structure Item where
  title : String
  url : String
  tags : List String
  summary : Option String
deriving DecidableEq

/-- An on-disk day-bucket file `{date, items}` (the constant `"$schema"` field written
    alongside is not modelled). -/
structure DayDoc where
  date : String
  items : List Item
deriving DecidableEq

/-- The raw on-disk index JSON as read: each field may be absent (or of the wrong
    JSON type, which `_coerce_daily_updates_index` treats like absence for the
    string fields it validates), modelled as `none`. -/
structure IndexRaw where
  schema : Option String
  title : Option String
  subtitle : Option String
  initial_open_days : Option Nat
  page_size_days : Option Nat
  days : Option (List String)
deriving DecidableEq

/-- The in-memory index document after `_coerce_daily_updates_index`. -/
structure IndexDoc where
  schema : String
  title : String
  subtitle : String
  initial_open_days : Nat
  page_size_days : Nat
  days : List String
deriving DecidableEq

/-- The sync-state file (`pr-sync-state.json`); ISO-8601 timestamp strings are modelled
    as their parsed UTC epoch-second values. -/
structure StateDoc where
  last_sync : Option Int
  last_pr_sync : Option Int
  last_commit_sync : Option Int
  last_run_at : Int
  last_added_urls : List String
  openai_enabled : Bool
  openai_model : Option String
  openai_base_url : Option String
deriving DecidableEq

/-- The files the sync reads and writes: the state file, the index file, and the
    `*.json` files of the daily-updates directory keyed by stem
    (`none` content = a file that fails to read or validate). -/
structure FS where
  stateFile : Option StateDoc
  indexFile : Option IndexRaw
  bucketDir : List (String × Option DayDoc)
deriving DecidableEq

/-- `_DAY_RE` (`^\d{4}-\d{2}-\d{2}$`) applied to the exact character shape. -/
def isDayCore : List Char → Bool
  | [a, b, c, d, e, f, g, h, i, j] =>
    a.isDigit && b.isDigit && c.isDigit && d.isDigit && e == '-' &&
      f.isDigit && g.isDigit && h == '-' && i.isDigit && j.isDigit
  | _ => false

/-- `_is_day`: the regex is matched against the stripped value. -/
def _is_day (s : String) : Bool := isDayCore (strTrim s).data

/-- Day-list normalisation inside `_coerce_daily_updates_index` (lines 342-355):
    strip, drop empty and non-day entries, drop repeats via a `seen` set, sort
    descending. -/
def normDays (ds : List String) : List String :=
  sortDescStr (dedupF (ds.filterMap (fun d =>
    let d := strTrim d
    if d = "" ∨ _is_day d = false then none else some d)))

/-- `_coerce_daily_updates_index` (lines 327-359). A missing/non-string `title` or
    `subtitle`, an empty-after-strip `title`, or a missing/non-array `days` raises
    `ValueError` (`Except.error`); otherwise defaults are filled in and the day list
    is normalised. -/
def _coerce_daily_updates_index (doc : IndexRaw) : Except String IndexDoc :=
  match doc.title with
  | none => .error "title"
  | some t =>
    if strTrim t = "" then .error "title"
    else match doc.subtitle with
      | none => .error "subtitle"
      | some sub =>
        match doc.days with
        | none => .error "days"
        | some ds =>
          .ok { schema := doc.schema.getD "./index.schema.json"
                title := t
                subtitle := sub
                initial_open_days := doc.initial_open_days.getD 3
                page_size_days := doc.page_size_days.getD 20
                days := normDays ds }

/-- `_coerce_daily_day` (lines 362-377): keep only items whose stripped `url` and
    `title` are both non-empty. -/
def _coerce_daily_day (items : List Item) : List Item :=
  items.filter (fun it => strTrim it.url ≠ "" ∧ strTrim it.title ≠ "")

/-- `_load_state` (lines 146-161): cursors default to `now − bootstrap_days` when the
    state file is absent; the legacy single cursor `last_sync` backs up either
    specific cursor. -/
def _load_state (fs : FS) (bootstrap_days : Nat) (now : Int) : Int × Int :=
  let fallback := now - 86400 * (bootstrap_days : Int)
  match fs.stateFile with
  | none => (fallback, fallback)
  | some st =>
    ((st.last_pr_sync <|> st.last_sync).getD fallback,
     (st.last_commit_sync <|> st.last_sync).getD fallback)

/-- `_save_state` (lines 164-190): the document written to the state file, including
    the derived overall cursor `last_sync = max(pr, commit)` and the 50-entry cap on
    `last_added_urls`. -/
def _save_state (last_pr_sync last_commit_sync last_run_at : Int)
    (added_urls : List String) (openai_enabled : Bool)
    (openai_model openai_base_url : Option String) : StateDoc :=
  { last_sync := some (max last_pr_sync last_commit_sync)
    last_pr_sync := some last_pr_sync
    last_commit_sync := some last_commit_sync
    last_run_at := last_run_at
    last_added_urls := added_urls.take 50
    openai_enabled := openai_enabled
    openai_model := openai_model
    openai_base_url := openai_base_url }

/-- `_parse_pull_url` (lines 125-133):
    `^https://github\.com/([^/]+)/([^/]+)/pull/(\d+)(?:/.*)?$` on the stripped URL.
    The optional tail after the number may not contain a newline (`.` in the pattern);
    the regex nuance that `$` also matches before a single trailing newline is not
    modelled. -/
def _parse_pull_url (html_url : String) : Option (String × String × Nat) :=
  let s := strTrim html_url
  if strStarts "https://github.com/" s then
    match splitChar '/' (s.data.drop 19) with
    | owner :: repo :: pull :: num :: tail =>
      if owner ≠ [] ∧ repo ≠ [] ∧ String.mk pull = "pull" ∧ num ≠ [] ∧
          num.all Char.isDigit ∧ tail.all (fun seg => seg.all (fun c => c ≠ '\n'))
      then some (String.mk owner, String.mk repo, natOfDigits num)
      else none
    | _ => none
  else none

/-- `_is_merge_commit` (lines 308-318) on the fields it inspects: the number of
    entries of a list-valued `parents` (0 when absent or not a list) and the raw
    commit message. -/
def _is_merge_commit (parents_count : Nat) (message : String) : Bool :=
  if parents_count > 1 then true
  else
    let first := if message = "" then "" else strTrim (firstLine message)
    strStarts "Merge pull request #" first || strStarts "Merge branch" first

/-! ## Run configuration and upstream inputs -/

/-- The CLI- and environment-derived configuration of a run (`main`, lines 594-629). -/
structure Config where
  org : String
  exclude_repo : List String
  bootstrap_days : Nat
  max_new : Nat
  max_new_commits : Nat
  author_filter_org : Bool
  include_commits : Bool
  dry_run : Bool
  openai_enabled : Bool
  openai_model : String
  openai_base_url : String
deriving DecidableEq

/-- `excluded_repos` (line 629): stripped, lowercased, empties dropped. -/
def excludedSet (cfg : Config) : List String :=
  cfg.exclude_repo.filterMap (fun r =>
    let r := strTrim r
    if r = "" then none else some (strLower r))

/-- `{title, summary, tags}`-relevant JSON values: a string, an array whose entries are
    strings (`some`) or non-strings (`none`), or anything else. -/
inductive JVal where
  | str (s : String)
  | arr (xs : List (Option String))
  | other
deriving DecidableEq

/-- First field of a parsed JSON object (Python `parsed.get(k)`). -/
def jget (o : List (String × JVal)) (k : String) : Option JVal :=
  match o with
  | [] => none
  | (k2, v) :: rest => if k2 = k then some v else jget rest k

/-- The pure tail of `_summarize_pr_with_openai` (lines 562-586): the `(title, summary,
    tags)` triple computed from the extracted JSON object. The argument is the result of
    the response plumbing and `_extract_openai_json` (lines 493-509), a library/network
    boundary: `none` covers every path that returns `(None, None, [])` before field
    extraction — missing/empty `choices`, a non-string message content, and content from
    which no JSON object is extractable. -/
def summarizeOutcome (parsed : Option (List (String × JVal))) :
    Option String × Option String × List String :=
  match parsed with
  | none => (none, none, [])
  | some o =>
    let title := match jget o "title" with
      | some (.str t) => if strTrim t = "" then none else some (strTrim t)
      | _ => none
    let summary := match jget o "summary" with
      | some (.str s) => if strTrim s = "" then none else some (strTrim s)
      | _ => none
    let tags := match jget o "tags" with
      | some (.arr xs) => dedupF (xs.filterMap (fun x => match x with
          | some t => if strTrim t = "" then none else some (strTrim t)
          | none => none))
      | _ => []
    (title, summary, tags)

/-- The `try/except` around the enrichment call in the PR loop (lines 829-853): when no
    API key is configured the call is skipped; when the call raises (`Except.error`, any
    transport or response error) the exception is caught and the pre-call defaults
    `(None, None, [])` survive. -/
def enrichOutcome (openai_enabled : Bool)
    (e : Except Unit (Option (List (String × JVal)))) :
    Option String × Option String × List String :=
  if openai_enabled then
    match e with
    | .error _ => (none, none, [])
    | .ok parsed => summarizeOutcome parsed
  else (none, none, [])

deriving instance DecidableEq for Except

/-- Fields of the `_github_get_pr` response used by `main` (lines 799-826): `merged_at`
    (`none` = JSON null/absent, `.error` = a string `_parse_iso_datetime` raises on),
    `user.login` (`none` = missing user object or login), and the PR title. -/
structure PRDetail where
  merged_at : Option (Except Unit Int)
  user_login : Option String
  title : String
deriving DecidableEq

/-- A PR search result together with the responses of the per-item upstream calls it
    triggers: `_github_get_pr` (`fetch`), `_github_get_pr_files_digest` (`digest`) and
    the enrichment call (`enrich`); `.error` models the call raising. -/
structure PRCand where
  html_url : String
  fetch : Except Unit PRDetail
  digest : Except Unit Unit
  enrich : Except Unit (Option (List (String × JVal)))
deriving DecidableEq

/-- A commit search result, with the fields the commit loop inspects (lines 875-962). -/
structure CommitCand where
  html_url : String
  repo_full_name : Option String
  sha : String
  has_commit : Bool
  message : String
  has_committer : Bool
  committer_date : Option (Except Unit Int)
  parents_count : Nat
  author_login : Option String
  committer_login : Option String
deriving DecidableEq

/-- The results of the initial upstream calls of a run: the allow-list fetch (whose
    errors `_github_get_allowed_logins` catches internally, so it always yields a set),
    and the two searches (where a page-fetch error propagates). -/
structure Inputs where
  allowed_logins : List String
  pr_search : Except Unit (List PRCand)
  commit_search : Except Unit (List CommitCand)
deriving DecidableEq

/-- A newly accepted item: `(occurrence timestamp, day key, item)`. -/
abbrev NewEntry := Int × String × Item

/-- Item construction for an accepted PR (lines 855-864): fallback title
    `"<repo>#<number>: <title>"` when no enriched title, `summary` only when truthy,
    base tags extended and first-occurrence-deduplicated only when `extra_tags` is
    non-empty. -/
def buildPrItem (html_url repo : String) (number : Nat) (title : String)
    (pretty_title summary : Option String) (extra_tags : List String) : Item :=
  { title := match pretty_title with
      | some s => if s = "" then s!"{repo}#{number}: {title}" else s
      | none => s!"{repo}#{number}: {title}"
    url := html_url
    tags := if extra_tags = [] then ["github", "pr", repo]
            else dedupF (["github", "pr", repo] ++ extra_tags)
    summary := match summary with
      | some s => if s = "" then none else some s
      | none => none }

/-- The verdict of the per-candidate decision tree: drop the candidate and continue
    (`continue`), stop the loop (`break`), propagate an exception, or accept an item. -/
inductive StepVerdict where
  | skip
  | halt
  | fail
  | accept (e : NewEntry)
deriving DecidableEq

/-- The per-candidate decision tree of the PR loop (lines 778-873), in source order:
    the URL checks, `_parse_pull_url`, the owner and excluded-repo checks, the
    `max_new` break, the detail fetch, the `merged_at` presence/parse/cursor checks,
    the author allow-list filter, the title check, the files-digest fetch, and finally
    the (failure-tolerant) enrichment and item construction. -/
def prStep (cfg : Config) (allowed : List String) (existing_urls : List String)
    (last_pr_sync : Int) (c : PRCand) (nAdded : Nat) : StepVerdict :=
  let html_url := strTrim c.html_url
  if html_url = "" ∨ html_url ∈ existing_urls then .skip
  else match _parse_pull_url html_url with
  | none => .skip
  | some (owner, repo, number) =>
    if strLower owner ≠ strLower cfg.org then .skip
    else if strLower repo ∈ excludedSet cfg then .skip
    else if cfg.max_new ≤ nAdded then .halt
    else match c.fetch with
    | .error _ => .fail
    | .ok pr =>
      match pr.merged_at with
      | none => .skip
      | some (.error _) => .fail
      | some (.ok merged_at) =>
        if merged_at ≤ last_pr_sync then .skip
        else
          let author_login := strTrim (pr.user_login.getD "")
          if cfg.author_filter_org ∧
              (author_login = "" ∨ strLower author_login ∉ allowed) then .skip
          else
            let title := strTrim pr.title
            if title = "" then .skip
            else match c.digest with
            | .error _ => .fail
            | .ok _ =>
              let enr := enrichOutcome cfg.openai_enabled c.enrich
              .accept (merged_at, dateIso merged_at,
                buildPrItem html_url repo number title enr.1 enr.2.1 enr.2.2)

/-- The PR candidate loop of `main` (lines 778-873). Arguments after the candidate list
    are the loop state `(new_items so far, new_prs_added, max_seen_pr_sync)`; the result
    is `.error` when a per-item fetch or timestamp parse raises. -/
def prLoop (cfg : Config) (allowed : List String) (existing_urls : List String)
    (last_pr_sync : Int) :
    List PRCand → List NewEntry → Nat → Int → Except Unit (List NewEntry × Nat × Int)
  | [], acc, nAdded, maxSeen => .ok (acc, nAdded, maxSeen)
  | c :: cs, acc, nAdded, maxSeen =>
    match prStep cfg allowed existing_urls last_pr_sync c nAdded with
    | .skip => prLoop cfg allowed existing_urls last_pr_sync cs acc nAdded maxSeen
    | .halt => .ok (acc, nAdded, maxSeen)
    | .fail => .error ()
    | .accept e =>
      prLoop cfg allowed existing_urls last_pr_sync cs (acc ++ [e]) (nAdded + 1)
        (if maxSeen < e.1 then e.1 else maxSeen)

/-- Item construction for an accepted commit (lines 946-951): title
    `"<repo>@<sha[:7]>: <subject>"`, fixed tags, no summary. -/
def buildCommitItem (html_url repo sha subject : String) : Item :=
  { title := s!"{repo}@{String.mk (sha.data.take 7)}: {subject}"
    url := html_url
    tags := ["github", "commit", repo]
    summary := none }

/-- The author login used by the commit filter (lines 921-928): the top-level
    `author.login`, falling back to the top-level `committer.login` when absent or
    empty after stripping. -/
def commitAuthorLogin (c : CommitCand) : String :=
  if strTrim (c.author_login.getD "") = "" then strTrim (c.committer_login.getD "")
  else strTrim (c.author_login.getD "")

/-- The commit subject (lines 941-942): first line of the stripped message, stripped;
    empty when the stripped message is empty. -/
def commitSubject (message : String) : String :=
  if strTrim message = "" then "" else strTrim (firstLine (strTrim message))

/-- The per-candidate decision tree of the commit loop (lines 881-962), in source
    order (the `max_new_commits` break, line 879, lives in `commitLoop`): the URL checks, the
    `repository.full_name` split, owner and excluded-repo checks, the sha and
    commit/committer shape checks, the committer-date presence/parse/cursor checks,
    the merge-commit filter, the author allow-list filter (with committer fallback),
    the subject check, and item construction. -/
def commitStep (cfg : Config) (allowed : List String) (existing_urls : List String)
    (last_commit_sync : Int) (c : CommitCand) : StepVerdict :=
  if strTrim c.html_url = "" ∨ strTrim c.html_url ∈ existing_urls then .skip
  else match c.repo_full_name with
  | none => .skip
  | some fn =>
    if strTrim fn = "" ∨ strContainsChar '/' (strTrim fn) = false then .skip
    else match splitFirst '/' (strTrim fn).data with
    | none => .skip
    | some (ownerChars, repoChars) =>
      if strLower (String.mk ownerChars) ≠ strLower cfg.org then .skip
      else if strLower (String.mk repoChars) ∈ excludedSet cfg then .skip
      else if strTrim c.sha = "" then .skip
      else if c.has_commit = false then .skip
      else if c.has_committer = false then .skip
      else match c.committer_date with
      | none => .skip
      | some (.error _) => .fail
      | some (.ok committed_at) =>
        if committed_at ≤ last_commit_sync then .skip
        else if _is_merge_commit c.parents_count c.message then .skip
        else if cfg.author_filter_org ∧ (commitAuthorLogin c = "" ∨
            strLower (commitAuthorLogin c) ∉ allowed) then .skip
        else if commitSubject c.message = "" then .skip
        else
          .accept (committed_at, dateIso committed_at,
            buildCommitItem (strTrim c.html_url) (String.mk repoChars) (strTrim c.sha)
              (commitSubject c.message))

/-- The commit candidate loop of `main` (lines 875-962). -/
def commitLoop (cfg : Config) (allowed : List String) (existing_urls : List String)
    (last_commit_sync : Int) :
    List CommitCand → List NewEntry → Nat → Int → Except Unit (List NewEntry × Nat × Int)
  | [], acc, nAdded, maxSeen => .ok (acc, nAdded, maxSeen)
  | c :: cs, acc, nAdded, maxSeen =>
    if cfg.max_new_commits ≤ nAdded then .ok (acc, nAdded, maxSeen)
    else match commitStep cfg allowed existing_urls last_commit_sync c with
    | .skip => commitLoop cfg allowed existing_urls last_commit_sync cs acc nAdded maxSeen
    | .halt => .ok (acc, nAdded, maxSeen)
    | .fail => .error ()
    | .accept e =>
      commitLoop cfg allowed existing_urls last_commit_sync cs (acc ++ [e]) (nAdded + 1)
        (if maxSeen < e.1 then e.1 else maxSeen)

/-! ## Merge & persist -/

/-- The in-memory merge state threaded through lines 981-1009: `daily_by_day`,
    `existing_urls`, `added_urls` and `touched_days`. -/
structure MergeOut where
  daily : List (String × List Item)
  existing_urls : List String
  added_urls : List String
  touched : List String
deriving DecidableEq

/-- The per-day insert scan (lines 993-1000): walk the day's new items in order, skip
    an item whose stripped URL is empty or already recorded, otherwise keep it and
    record its URL in `existing_urls` and `added_urls`. -/
def scanInserts (existing added : List String) :
    List Item → List Item × List String × List String
  | [] => ([], existing, added)
  | it :: rest =>
    let url := strTrim it.url
    if url = "" ∨ url ∈ existing then scanInserts existing added rest
    else
      let r := scanInserts (existing ++ [url]) (added ++ [url]) rest
      (it :: r.1, r.2)

/-- Merge one day's new items into the store (lines 991-1009): compute the inserts,
    and when non-empty prepend them to the day's bucket after removing existing items
    with an inserted URL, marking the day touched. -/
def mergeDay (st : MergeOut) (day : String) (items : List Item) : MergeOut :=
  let r := scanInserts st.existing_urls st.added_urls items
  let inserts := r.1
  if inserts = [] then { st with existing_urls := r.2.1, added_urls := r.2.2 }
  else
    let existing := getAssocD st.daily day []
    let inserted_urls := inserts.map (fun it => strTrim it.url)
    let existing_filtered := existing.filter (fun it => strTrim it.url ∉ inserted_urls)
    { daily := setAssoc st.daily day (inserts ++ existing_filtered)
      existing_urls := r.2.1
      added_urls := r.2.2
      touched := st.touched ++ [day] }

/-- The merge step (lines 984-1009): nothing happens when there are no new items;
    otherwise sort all new items newest-first, group them by day preserving order,
    re-sort each day's group (a stable no-op kept for fidelity) and merge day by day. -/
def mergeStep (daily : List (String × List Item)) (existing : List String)
    (new_items : List NewEntry) : MergeOut :=
  let init : MergeOut := { daily := daily, existing_urls := existing,
                           added_urls := [], touched := [] }
  if new_items = [] then init
  else
    let sorted := sortDescBy (fun e => e.1) new_items
    let grouped : List (String × List (Int × Item)) :=
      sorted.foldl (fun m e => addGroup m e.2.1 (e.1, e.2.2)) []
    grouped.foldl (fun st g =>
      mergeDay st g.1 ((sortDescBy (fun p => p.1) g.2).map Prod.snd)) init

/-! ## Store loading (lines 656-750) -/

/-- The in-memory state after loading: the coerced index (day list already extended by
    the disk scan), the per-day item lists, and the set of already-recorded URLs. -/
structure LoadOut where
  index : IndexDoc
  daily : List (String × List Item)
  existing_urls : List String
deriving DecidableEq

/-- The default index document used when no index file exists (lines 710-717).
    The legacy `daily-updates.json` migration (lines 663-699) is not modelled: the
    store is taken to have no legacy file. -/
def defaultIndexRaw : IndexRaw :=
  { schema := some "./index.schema.json", title := some "Daily Updates",
    subtitle := some "", initial_open_days := some 3, page_size_days := some 20,
    days := some [] }

/-- The `existing_urls` accumulation of the bucket-loading loop (lines 746-749): every
    stripped non-empty item URL, first occurrences in store order. -/
def collectUrls (daily : List (String × List Item)) : List String :=
  daily.foldl (fun acc p =>
    p.2.foldl (fun acc2 it =>
      let url := strTrim it.url
      if url ≠ "" ∧ url ∉ acc2 then acc2 ++ [url] else acc2) acc) []

/-- Index load, day-file discovery and bucket load (lines 656-749): coerce the index
    (raising on a malformed one), append to its day list every day-named `*.json` file
    not already listed, sort the de-duplicated day list descending, then load each
    day's bucket — a file that is absent, unreadable or malformed degrades to an empty
    item list — and collect every stripped non-empty item URL. -/
def loadStore (fs : FS) : Except String LoadOut :=
  let raw := match fs.indexFile with
    | some r => r
    | none => defaultIndexRaw
  match _coerce_daily_updates_index raw with
  | .error e => .error e
  | .ok idx =>
    let days1 := (fs.bucketDir.map Prod.fst).foldl
      (fun ds stem => if _is_day stem ∧ stem ∉ ds then ds ++ [stem] else ds) idx.days
    let days := sortDescStr (dedupF days1)
    let daily := days.map (fun day =>
      (day, match getAssocOpt fs.bucketDir day with
        | none => []
        | some none => []
        | some (some doc) => _coerce_daily_day doc.items))
    .ok { index := { idx with days := days }, daily := daily,
          existing_urls := collectUrls daily }

/-! ## Persisting (lines 964-1066) -/

/-- `_index_doc` (lines 964-972): the index document written out, with Python-falsy
    fields replaced by their defaults and the given day list. -/
def _index_doc (index : IndexDoc) (days : List String) : IndexDoc :=
  { schema := if index.schema = "" then "./index.schema.json" else index.schema
    title := if index.title = "" then "Daily Updates" else index.title
    subtitle := index.subtitle
    initial_open_days := if index.initial_open_days = 0 then 3 else index.initial_open_days
    page_size_days := if index.page_size_days = 0 then 20 else index.page_size_days
    days := days }

/-- The raw JSON document a written index deserialises to. -/
def indexToRaw (d : IndexDoc) : IndexRaw :=
  { schema := some d.schema, title := some d.title, subtitle := some d.subtitle,
    initial_open_days := some d.initial_open_days, page_size_days := some d.page_size_days,
    days := some d.days }

/-- Bucket writes (lines 1027-1030): rewrite every touched day's file in full,
    iterating the touched set in descending order. -/
def writeBuckets (fs : FS) (M : MergeOut) : FS :=
  (sortDescStr (dedupF M.touched)).foldl
    (fun f day =>
      let doc : Option DayDoc := some { date := day, items := getAssocD M.daily day [] }
      { f with bucketDir := setAssoc f.bucketDir day doc })
    fs

/-- The day-named `*.json` stems present in the daily-updates directory
    (`{p.stem for p in daily_dir.glob("*.json") if _is_day(p.stem)}`). -/
def dayFilesOf (fs : FS) : List String :=
  dedupF ((fs.bucketDir.map Prod.fst).filter (fun s => _is_day s))

/-! ## The run pipeline -/

/-- The mid-run snapshot after loading, polling and both candidate loops, before any
    write: the two loaded cursors, the loaded store, and each loop's
    `(new items, added count, max seen timestamp)`. -/
structure Mid where
  last_pr : Int
  last_cm : Int
  load : LoadOut
  pr : List NewEntry × Nat × Int
  cm : List NewEntry × Nat × Int
deriving DecidableEq

/-- `main` from the store/state load through both candidate loops (lines 656-962):
    everything before the first write. An exception anywhere here propagates. -/
def runMid (cfg : Config) (inp : Inputs) (now : Int) (fs : FS) : Except Unit Mid :=
  match loadStore fs with
  | .error _ => .error ()
  | .ok L =>
    let cursors := _load_state fs cfg.bootstrap_days now
    match inp.pr_search with
    | .error e => .error e
    | .ok raw_prs =>
      match (if cfg.include_commits then inp.commit_search else .ok []) with
      | .error e => .error e
      | .ok raw_commits =>
        match prLoop cfg inp.allowed_logins L.existing_urls cursors.1 raw_prs [] 0 cursors.1 with
        | .error e => .error e
        | .ok pr =>
          match commitLoop cfg inp.allowed_logins L.existing_urls cursors.2 raw_commits
              [] 0 cursors.2 with
          | .error e => .error e
          | .ok cm =>
            .ok { last_pr := cursors.1, last_cm := cursors.2, load := L, pr := pr, cm := cm }

/-- The write stage of a non-dry run (lines 1027-1060): merge, rewrite touched bucket
    files, rescan the directory and rewrite the index from the day files actually
    present, then write the sync state — with unchanged cursors when no new item was
    accepted, otherwise with each loop's max seen timestamp. -/
def writeFS (cfg : Config) (now : Int) (fs : FS) (m : Mid) : FS :=
  let new_items := m.pr.1 ++ m.cm.1
  let M := mergeStep m.load.daily m.load.existing_urls new_items
  let fs1 := writeBuckets fs M
  let idxOut := indexToRaw (_index_doc m.load.index (sortDescStr (dayFilesOf fs1)))
  let fs2 := { fs1 with indexFile := some idxOut }
  let st :=
    if new_items = [] then
      _save_state m.last_pr m.last_cm now [] cfg.openai_enabled
        (if cfg.openai_enabled then some cfg.openai_model else none)
        (if cfg.openai_enabled then some cfg.openai_base_url else none)
    else
      _save_state m.pr.2.2 m.cm.2.2 now M.added_urls cfg.openai_enabled
        (if cfg.openai_enabled then some cfg.openai_model else none)
        (if cfg.openai_enabled then some cfg.openai_base_url else none)
  { fs2 with stateFile := some st }

/-- One invocation of `main` past argument parsing, with the filesystem threaded
    explicitly: the result of the process paired with the filesystem afterwards.
    The script performs no write before or during polling and filtering (the legacy
    migration excepted, which is not modelled), so an error leaves the filesystem
    exactly as given; a dry run stops before every write (lines 1016-1025). -/
def runSync (cfg : Config) (inp : Inputs) (now : Int) (fs : FS) : Except Unit Unit × FS :=
  match runMid cfg inp now fs with
  | .error e => (.error e, fs)
  | .ok m => if cfg.dry_run then (.ok (), fs) else (.ok (), writeFS cfg now fs m)

/-! ## Since-date computation and search queries (lines 193-260, 752-754) -/

/-- Line 753: `(last_pr_sync - timedelta(days=1)).date().isoformat()`. -/
def pr_since_date (last_pr_sync : Int) : String := dateIso (last_pr_sync - 86400)

/-- Line 754: `(last_commit_sync - timedelta(days=1)).date().isoformat()`. -/
def commit_since_date (last_commit_sync : Int) : String := dateIso (last_commit_sync - 86400)

/-- The PR search query (line 204). -/
def prSearchQuery (org since_date : String) : String :=
  s!"org:{org} is:pr is:merged merged:>={since_date}"

/-- The commit search query (line 238). -/
def commitSearchQuery (org since_date : String) : String :=
  s!"org:{org} committer-date:>={since_date}"

/-! ## File-write patterns (C3) -/

/-- A primitive filesystem event performed while persisting a JSON document: opening a
    path for writing (its content is observable at that path while partially written),
    or an atomic rename. -/
inductive FsEv where
  | openWrite (path : String)
  | rename (src dst : String)
deriving DecidableEq

/-- The events of `_write_json` in `sync_merged_prs_to_daily_updates.py` (lines 67-70):
    `open(path, "w")` on the destination itself, then `json.dump` into it. Every
    persistence call of the sync script — `_save_state` (line 176), the legacy-migration
    day files (line 683), the bucket files (line 1030) and the index (line 1034) — goes
    through this helper. -/
def write_json_events (path : String) : List FsEv := [.openWrite path]

/-- The events of `_atomic_write_json` in `generate_recent_orders.py` (lines 25-31),
    `generate_revenue_snapshot.py` (lines 16-20) and `generate_creator_fees_snapshot.py`
    (lines 39-45): write `path.with_suffix(path.suffix + ".tmp")` — i.e. `path + ".tmp"`
    — then `Path.replace` it over the destination. -/
def atomic_write_json_events (path : String) : List FsEv :=
  [.openWrite (path ++ ".tmp"), .rename (path ++ ".tmp") path]

/-- An event list persists `path` with the write-temp-then-rename pattern: the
    destination itself is never opened for writing, and the content arrives by a rename
    from a different path — so an external reader can never observe a partially written
    file at `path`. -/
def tempThenRename (evs : List FsEv) (path : String) : Prop :=
  (∀ ev ∈ evs, ev ≠ FsEv.openWrite path) ∧
  ∃ src, FsEv.rename src path ∈ evs ∧ src ≠ path

/-! ## `generate_recent_orders.py`: order-id masking (C10) -/

/-- `_mask_order_id` (lines 51-56): keep the first 10 and last 10 characters, mask the
    middle with `"****"`; ids of at most 20 characters pass through. `_django_query`
    applies this to `str(row.id)` of every selected order (line 123). -/
def _mask_order_id (order_id : String) : String :=
  if order_id.length ≤ 20 then order_id
  else String.mk (order_id.data.take 10) ++ "****" ++
    String.mk (order_id.data.drop (order_id.length - 10))


/-! ## Helper lemmas about the candidate loops -/

theorem ite_lt_eq_max (a b : Int) : (if a < b then b else a) = max a b := by
  by_cases h : a < b
  · simp [h, max_eq_right (le_of_lt h)]
  · simp [h, max_eq_left (le_of_not_lt h)]

/-- An accepted PR carries a merge timestamp strictly above the cursor, is filed under
    the day of that timestamp, and records the candidate's stripped URL. -/
theorem prStep_accept (cfg : Config) (A E : List String) (L : Int) (c : PRCand)
    (n : Nat) (e : NewEntry) :
    prStep cfg A E L c n = .accept e →
    L < e.1 ∧ e.2.1 = dateIso e.1 ∧ e.2.2.url = strTrim c.html_url := by
  unfold prStep
  dsimp only
  repeat' split
  all_goals rintro ⟨⟩
  all_goals exact ⟨by omega, rfl, by simp [buildPrItem]⟩

set_option maxHeartbeats 2000000 in
/-- An accepted commit carries a commit timestamp strictly above the cursor, is filed
    under the day of that timestamp, and records the candidate's stripped URL. -/
theorem commitStep_accept (cfg : Config) (A E : List String) (L : Int) (c : CommitCand)
    (e : NewEntry) :
    commitStep cfg A E L c = .accept e →
    L < e.1 ∧ e.2.1 = dateIso e.1 ∧ e.2.2.url = strTrim c.html_url := by
  unfold commitStep
  repeat' split
  all_goals rintro ⟨⟩
  all_goals exact ⟨by omega, rfl, by simp [buildCommitItem]⟩

/-- Shape of a successful PR loop: the accepted entries extend the accumulator, the
    final `max_seen_pr_sync` is the running maximum of the start value over the accepted
    timestamps, and every accepted entry has a timestamp above the cursor and is filed
    under its own day. -/
theorem prLoop_spec (cfg : Config) (A E : List String) (L : Int) :
    ∀ (cands : List PRCand) (acc : List NewEntry) (n : Nat) (ms : Int)
      (out : List NewEntry × Nat × Int),
      prLoop cfg A E L cands acc n ms = .ok out →
      ∃ tail, out.1 = acc ++ tail ∧
        out.2.2 = (tail.map (fun e => e.1)).foldl max ms ∧
        ∀ e ∈ tail, L < e.1 ∧ e.2.1 = dateIso e.1 := by
  intro cands
  induction cands with
  | nil =>
    intro acc n ms out h
    simp only [prLoop] at h
    cases h
    exact ⟨[], by simp⟩
  | cons c cs ih =>
    intro acc n ms out h
    simp only [prLoop] at h
    split at h
    · exact ih acc n ms out h
    · cases h
      exact ⟨[], by simp⟩
    · cases h
    · rename_i e hstep
      obtain ⟨tail, h1, h2, h3⟩ := ih _ _ _ _ h
      refine ⟨e :: tail, by simpa using h1, ?_, ?_⟩
      · simpa [ite_lt_eq_max] using h2
      · intro x hx
        rcases List.mem_cons.mp hx with rfl | hx
        · obtain ⟨hgt, hday, -⟩ := prStep_accept cfg A E L c n x hstep
          exact ⟨hgt, hday⟩
        · exact h3 x hx

/-- Shape of a successful commit loop, as in `prLoop_spec`. -/
theorem commitLoop_spec (cfg : Config) (A E : List String) (L : Int) :
    ∀ (cands : List CommitCand) (acc : List NewEntry) (n : Nat) (ms : Int)
      (out : List NewEntry × Nat × Int),
      commitLoop cfg A E L cands acc n ms = .ok out →
      ∃ tail, out.1 = acc ++ tail ∧
        out.2.2 = (tail.map (fun e => e.1)).foldl max ms ∧
        ∀ e ∈ tail, L < e.1 ∧ e.2.1 = dateIso e.1 := by
  intro cands
  induction cands with
  | nil =>
    intro acc n ms out h
    simp only [commitLoop] at h
    cases h
    exact ⟨[], by simp⟩
  | cons c cs ih =>
    intro acc n ms out h
    simp only [commitLoop] at h
    split at h
    · cases h
      exact ⟨[], by simp⟩
    · split at h
      · exact ih acc n ms out h
      · cases h
        exact ⟨[], by simp⟩
      · cases h
      · rename_i e hstep
        obtain ⟨tail, h1, h2, h3⟩ := ih _ _ _ _ h
        refine ⟨e :: tail, by simpa using h1, ?_, ?_⟩
        · simpa [ite_lt_eq_max] using h2
        · intro x hx
          rcases List.mem_cons.mp hx with rfl | hx
          · obtain ⟨hgt, hday, -⟩ := commitStep_accept cfg A E L c x hstep
            exact ⟨hgt, hday⟩
          · exact h3 x hx

/-! ## C10: order-id masking -/

/-- C10: for every order id string, the masked id equals the original when its length
    is at most 20 characters, and otherwise equals exactly the first 10 characters,
    then `"****"`, then the last 10 characters — 24 characters in total, each of which
    comes from the first 10, the last 10, or the literal mask, so no character outside
    the first 10 and last 10 is ever revealed. -/
theorem mask_order_id_spec (s : String) :
    (s.length ≤ 20 → _mask_order_id s = s) ∧
    (20 < s.length →
      _mask_order_id s =
        String.mk (s.data.take 10) ++ "****" ++ String.mk (s.data.drop (s.length - 10)) ∧
      (_mask_order_id s).length = 24 ∧
      ∀ c ∈ (_mask_order_id s).data,
        c ∈ s.data.take 10 ∨ c ∈ s.data.drop (s.length - 10) ∨
          c ∈ ("****" : String).data) := by
  constructor
  · intro h
    simp [_mask_order_id, h]
  · intro h
    have hnot : ¬ s.length ≤ 20 := by omega
    have hdata : s.data.length = s.length := rfl
    refine ⟨by simp [_mask_order_id, hnot], ?_, ?_⟩
    · simp only [_mask_order_id, hnot, if_false, String.length_append, String.length_mk,
        List.length_take, List.length_drop]
      have h4 : ("****" : String).length = 4 := rfl
      have hmin : 10 ⊓ s.data.length = 10 := Nat.min_eq_left (by omega)
      rw [hmin]
      omega
    · intro ch hch
      simp only [_mask_order_id, hnot, if_false] at hch
      rw [String.data_append, String.data_append] at hch
      rcases List.mem_append.mp hch with hch | hch
      · rcases List.mem_append.mp hch with hch | hch
        · exact Or.inl hch
        · exact Or.inr (Or.inr hch)
      · exact Or.inr (Or.inl hch)

/-- Witness for C10: a 25-character id is masked to its first 10 characters, `"****"`,
    and its last 10 characters; a short id passes through. -/
theorem mask_order_id_spec_witness :
    _mask_order_id "abcdefghijklmnopqrstuvwxy" = "abcdefghij****pqrstuvwxy" ∧
    _mask_order_id "order-123" = "order-123" := by
  constructor
  · have h := ((mask_order_id_spec "abcdefghijklmnopqrstuvwxy").2 (by decide)).1
    rw [h]; decide
  · exact (mask_order_id_spec "order-123").1 (by decide)

/-! ## C3: write-temp-then-rename -/

theorem append_tmp_ne (p : String) : p ++ ".tmp" ≠ p := by
  intro h
  have hl := congrArg String.length h
  rw [String.length_append] at hl
  have h4 : (".tmp" : String).length = 4 := rfl
  omega

/-- C3 (counterexample): the sync script's `_write_json` opens the destination path
    itself for writing — its state-file write (and likewise its bucket and index
    writes, which use the same helper) does not follow the write-temp-then-rename
    pattern, so the claim that every JSON file these scripts write is produced that way
    fails. -/
theorem sync_write_json_not_atomic :
    ¬ tempThenRename (write_json_events "config/pr-sync-state.json")
        "config/pr-sync-state.json" := by
  rintro ⟨h1, -⟩
  exact h1 (FsEv.openWrite "config/pr-sync-state.json")
    (by simp [write_json_events]) rfl

/-- C3 (amended): the snapshot scripts' `_atomic_write_json` persists every output path
    with the write-temp-then-rename pattern (the destination is never opened for
    writing; its content arrives by a rename from the distinct `<path>.tmp`), while the
    sync script's `_write_json` — used for all of its state, bucket and index
    persistence — is a single in-place open of the destination. -/
theorem write_pattern_by_script :
    (∀ path : String, tempThenRename (atomic_write_json_events path) path) ∧
    (∀ path : String, write_json_events path = [FsEv.openWrite path]) := by
  refine ⟨fun p => ⟨?_, ⟨p ++ ".tmp", by simp [atomic_write_json_events], append_tmp_ne p⟩⟩,
    fun p => rfl⟩
  intro ev hev
  rcases (by simpa [atomic_write_json_events] using hev :
      ev = FsEv.openWrite (p ++ ".tmp") ∨ ev = FsEv.rename (p ++ ".tmp") p) with rfl | rfl
  · intro hcon
    exact append_tmp_ne p (FsEv.openWrite.inj hcon)
  · intro hcon
    cases hcon

/-! ## C6: safety-margin overlap -/

theorem dayNumber_sub_day (c : Int) : dayNumber (c - 86400) = dayNumber c - 1 := by
  unfold dayNumber
  rw [Int.fdiv_eq_ediv _ (by norm_num), Int.fdiv_eq_ediv _ (by norm_num)]
  omega

/-- C6: the upstream query's minimum date is the cursor's calendar day minus one
    (both since-date computations subtract one day before taking the date), and every
    item either loop accepts has its occurrence timestamp strictly greater than the
    corresponding cursor — so a returned PR with merge time ≤ `last_pr_sync` (resp. a
    commit with commit time ≤ `last_commit_sync`) is dropped even though it matched the
    query. -/
theorem safety_margin_overlap :
    (∀ c : Int, pr_since_date c = isoDateOfDay (dayNumber c - 1) ∧
        commit_since_date c = isoDateOfDay (dayNumber c - 1)) ∧
    (∀ (cfg : Config) (A E : List String) (L : Int) (cands : List PRCand)
        (out : List NewEntry × Nat × Int),
        prLoop cfg A E L cands [] 0 L = .ok out → ∀ e ∈ out.1, L < e.1) ∧
    (∀ (cfg : Config) (A E : List String) (L : Int) (cands : List CommitCand)
        (out : List NewEntry × Nat × Int),
        commitLoop cfg A E L cands [] 0 L = .ok out → ∀ e ∈ out.1, L < e.1) := by
  refine ⟨fun c => ?_, fun cfg A E L cands out h => ?_, fun cfg A E L cands out h => ?_⟩
  · unfold pr_since_date commit_since_date dateIso
    rw [dayNumber_sub_day]
    exact ⟨rfl, rfl⟩
  · obtain ⟨tail, h1, -, h3⟩ := prLoop_spec cfg A E L cands [] 0 L out h
    intro e he
    rw [h1] at he
    exact (h3 e (by simpa using he)).1
  · obtain ⟨tail, h1, -, h3⟩ := commitLoop_spec cfg A E L cands [] 0 L out h
    intro e he
    rw [h1] at he
    exact (h3 e (by simpa using he)).1

/-- Concrete fixtures for the C6 witness: a cursor at 2024-01-10T12:00:00Z, one PR
    merged exactly at the cursor (dropped) and one merged a second later (accepted). -/
def cfg6 : Config :=
  { org := "Org", exclude_repo := [], bootstrap_days := 14, max_new := 30,
    max_new_commits := 30, author_filter_org := false, include_commits := true,
    dry_run := false, openai_enabled := false, openai_model := "m", openai_base_url := "b" }

def cand6a : PRCand :=
  { html_url := "https://github.com/Org/R/pull/1",
    fetch := .ok { merged_at := some (.ok 1704888000), user_login := some "u", title := "T1" },
    digest := .ok (), enrich := .ok none }

def cand6b : PRCand :=
  { html_url := "https://github.com/Org/R/pull/2",
    fetch := .ok { merged_at := some (.ok 1704888001), user_login := some "u", title := "T2" },
    digest := .ok (), enrich := .ok none }

def prOut6 : List NewEntry × Nat × Int :=
  ([(1704888001, "2024-01-10",
      buildPrItem "https://github.com/Org/R/pull/2" "R" 2 "T2" none none [])],
   1, 1704888001)

/-- Witness for C6: the example cursor yields minimum date `2024-01-09`; on the
    concrete candidates the at-cursor PR is dropped, the later one accepted, and every
    accepted timestamp exceeds the cursor. -/
theorem safety_margin_overlap_witness :
    pr_since_date 1704888000 = "2024-01-09" ∧
    prLoop cfg6 [] [] 1704888000 [cand6a, cand6b] [] 0 1704888000 = .ok prOut6 ∧
    ∀ e ∈ prOut6.1, (1704888000 : Int) < e.1 := by
  refine ⟨?_, by decide, ?_⟩
  · rw [(safety_margin_overlap.1 1704888000).1]
    decide
  · exact safety_margin_overlap.2.1 cfg6 [] [] 1704888000 [cand6a, cand6b] prOut6 (by decide)

/-! ## Inversion of a successful pre-write pipeline -/

/-- A successful `runMid` decomposes into a successful store load, the loaded cursors,
    and successful candidate loops over the search results. -/
theorem runMid_ok (cfg : Config) (inp : Inputs) (now : Int) (fs : FS) (m : Mid)
    (h : runMid cfg inp now fs = .ok m) :
    loadStore fs = .ok m.load ∧
    m.last_pr = (_load_state fs cfg.bootstrap_days now).1 ∧
    m.last_cm = (_load_state fs cfg.bootstrap_days now).2 ∧
    (∃ prs, inp.pr_search = .ok prs ∧
      prLoop cfg inp.allowed_logins m.load.existing_urls m.last_pr prs [] 0 m.last_pr
        = .ok m.pr) ∧
    (∃ cms, (if cfg.include_commits then inp.commit_search else .ok []) = .ok cms ∧
      commitLoop cfg inp.allowed_logins m.load.existing_urls m.last_cm cms [] 0 m.last_cm
        = .ok m.cm) := by
  unfold runMid at h
  dsimp only at h
  repeat' split at h
  all_goals cases h
  refine ⟨by assumption, rfl, rfl, ⟨_, by assumption, by assumption⟩,
    ⟨_, by assumption, by assumption⟩⟩

/-! ## C2: cursor monotonicity -/

/-- C2: on every successful non-dry run, each cursor written to the state file equals
    the running maximum of its loaded value over the timestamps of the items that
    stream actually accepted — hence it is ≥ its value at the start of the run, and a
    run that accepted nothing for a stream (in particular an all-skipped or empty run)
    writes that cursor back unchanged. -/
theorem cursor_monotonicity (cfg : Config) (inp : Inputs) (now : Int) (fs : FS)
    (m : Mid) (hdry : cfg.dry_run = false) (hmid : runMid cfg inp now fs = .ok m) :
    ∃ st, (runSync cfg inp now fs).2.stateFile = some st ∧
      st.last_pr_sync = some ((m.pr.1.map (fun e => e.1)).foldl max m.last_pr) ∧
      st.last_commit_sync = some ((m.cm.1.map (fun e => e.1)).foldl max m.last_cm) ∧
      m.last_pr ≤ (m.pr.1.map (fun e => e.1)).foldl max m.last_pr ∧
      m.last_cm ≤ (m.cm.1.map (fun e => e.1)).foldl max m.last_cm ∧
      (m.pr.1 = [] → st.last_pr_sync = some m.last_pr) ∧
      (m.cm.1 = [] → st.last_commit_sync = some m.last_cm) := by
  obtain ⟨hload, hpr0, hcm0, ⟨prs, hprs, hprl⟩, ⟨cms, hcms, hcml⟩⟩ :=
    runMid_ok cfg inp now fs m hmid
  obtain ⟨ptail, hp1, hp2, -⟩ := prLoop_spec _ _ _ _ _ _ _ _ _ hprl
  obtain ⟨ctail, hc1, hc2, -⟩ := commitLoop_spec _ _ _ _ _ _ _ _ _ hcml
  simp only [List.nil_append] at hp1 hc1
  have hrun : runSync cfg inp now fs = (.ok (), writeFS cfg now fs m) := by
    simp [runSync, hmid, hdry]
  rw [hrun]
  unfold writeFS
  dsimp only
  by_cases hempty : m.pr.1 ++ m.cm.1 = []
  · have hpe : m.pr.1 = [] := List.append_eq_nil.mp hempty |>.1
    have hce : m.cm.1 = [] := List.append_eq_nil.mp hempty |>.2
    rw [if_pos hempty]
    refine ⟨_, rfl, ?_, ?_, ?_, ?_, fun _ => ?_, fun _ => ?_⟩ <;>
      simp [_save_state, hpe, hce]
  · rw [if_neg hempty]
    refine ⟨_, rfl, ?_, ?_, ?_, ?_, fun hpe => ?_, fun hce => ?_⟩
    · simp [_save_state, hp2, hp1]
    · simp [_save_state, hc2, hc1]
    · exact foldl_max_le_init _ _
    · exact foldl_max_le_init _ _
    · subst hp1
      simp [_save_state, hp2, hpe]
    · subst hc1
      simp [_save_state, hc2, hce]

/-- Concrete fixtures for the C2 witness: loaded cursors 100 and 200, one PR accepted
    at timestamp 150, no commits. -/
def cfg2w : Config :=
  { org := "Org", exclude_repo := [], bootstrap_days := 14, max_new := 30,
    max_new_commits := 30, author_filter_org := false, include_commits := true,
    dry_run := false, openai_enabled := false, openai_model := "m", openai_base_url := "b" }

def state2w : StateDoc :=
  { last_sync := none
    last_pr_sync := some 100
    last_commit_sync := some 200
    last_run_at := 0
    last_added_urls := []
    openai_enabled := false
    openai_model := none
    openai_base_url := none }

def fs2w : FS :=
  { stateFile := some state2w, indexFile := some defaultIndexRaw, bucketDir := [] }

def cand2w : PRCand :=
  { html_url := "https://github.com/Org/R/pull/7"
    fetch := .ok { merged_at := some (.ok 150), user_login := some "u", title := "T" }
    digest := .ok ()
    enrich := .ok none }

def inp2w : Inputs :=
  { allowed_logins := [], pr_search := .ok [cand2w], commit_search := .ok [] }

def index2w : IndexDoc :=
  { schema := "./index.schema.json", title := "Daily Updates", subtitle := ""
    initial_open_days := 3, page_size_days := 20, days := [] }

def mid2w : Mid :=
  { last_pr := 100
    last_cm := 200
    load := { index := index2w, daily := [], existing_urls := [] }
    pr := ([(150, dateIso 150,
            buildPrItem "https://github.com/Org/R/pull/7" "R" 7 "T" none none [])], 1, 150)
    cm := ([], 0, 200) }

/-- Witness for C2: on the concrete run the written `last_pr_sync` advances to the
    accepted item's timestamp 150 and `last_commit_sync` stays at its loaded value
    200. -/
theorem cursor_monotonicity_witness :
    ∃ st, (runSync cfg2w inp2w 999 fs2w).2.stateFile = some st ∧
      st.last_pr_sync = some 150 ∧ st.last_commit_sync = some 200 := by
  obtain ⟨st, h1, h2, h3, -⟩ := cursor_monotonicity cfg2w inp2w 999 fs2w mid2w rfl (by decide)
  refine ⟨st, h1, ?_, ?_⟩
  · rw [h2]; decide
  · rw [h3]; decide

/-! ## C9: run atomicity on polling/filtering failure -/

/-- C9: a failing PR search aborts the run, a failing commit search (when commits are
    included) aborts the run, a reached candidate whose detail fetch or timestamp parse
    raises aborts its loop, and every aborted run leaves the filesystem — in particular
    the state file — exactly as it was: the state file is only written on the success
    path after all candidates are processed. -/
theorem polling_failure_aborts (cfg : Config) (inp : Inputs) (now : Int) (fs : FS) :
    (inp.pr_search = .error () → (runSync cfg inp now fs).1 = .error ()) ∧
    (cfg.include_commits = true → inp.commit_search = .error () →
      (runSync cfg inp now fs).1 = .error ()) ∧
    (∀ (A E : List String) (L : Int) (c : PRCand) (cs : List PRCand)
        (acc : List NewEntry) (n : Nat) (ms : Int),
      prStep cfg A E L c n = .fail → prLoop cfg A E L (c :: cs) acc n ms = .error ()) ∧
    (∀ (A E : List String) (L : Int) (c : CommitCand) (cs : List CommitCand)
        (acc : List NewEntry) (n : Nat) (ms : Int),
      ¬ cfg.max_new_commits ≤ n → commitStep cfg A E L c = .fail →
      commitLoop cfg A E L (c :: cs) acc n ms = .error ()) ∧
    ((runSync cfg inp now fs).1 = .error () → (runSync cfg inp now fs).2 = fs) := by
  refine ⟨?_, ?_, ?_, ?_, ?_⟩
  · intro hpr
    cases hm : runMid cfg inp now fs with
    | error e => simp [runSync, hm]
    | ok m =>
      obtain ⟨-, -, -, ⟨prs, hprs, -⟩, -⟩ := runMid_ok cfg inp now fs m hm
      rw [hpr] at hprs
      cases hprs
  · intro hinc hcm
    cases hm : runMid cfg inp now fs with
    | error e => simp [runSync, hm]
    | ok m =>
      obtain ⟨-, -, -, -, ⟨cms, hcms, -⟩⟩ := runMid_ok cfg inp now fs m hm
      rw [hinc, hcm] at hcms
      cases hcms
  · intro A E L c cs acc n ms hstep
    simp [prLoop, hstep]
  · intro A E L c cs acc n ms hn hstep
    simp [commitLoop, hn, hstep]
  · intro herr
    cases hm : runMid cfg inp now fs with
    | error e => simp [runSync, hm]
    | ok m =>
      rw [runSync, hm] at herr
      by_cases hd : cfg.dry_run <;> simp [hd] at herr

/-- Concrete fixtures for the C9 witness: a run whose PR search raises. -/
def inp9w : Inputs :=
  { allowed_logins := [], pr_search := .error (), commit_search := .ok [] }

/-- Witness for C9: with a failing PR search the concrete run errors and the
    filesystem, state file included, is exactly the input one. -/
theorem polling_failure_aborts_witness :
    (runSync cfg2w inp9w 999 fs2w).1 = .error () ∧
    (runSync cfg2w inp9w 999 fs2w).2 = fs2w := by
  have h1 := (polling_failure_aborts cfg2w inp9w 999 fs2w).1 rfl
  exact ⟨h1, (polling_failure_aborts cfg2w inp9w 999 fs2w).2.2.2.2 h1⟩

/-! ## C7: index completeness -/

/-- C7: after every successful non-dry run, a date is listed in the written index's day
    list iff a bucket file with that (day-patterned) stem exists on disk afterwards —
    both directions of the completeness invariant. -/
theorem index_completeness (cfg : Config) (inp : Inputs) (now : Int) (fs : FS)
    (m : Mid) (hdry : cfg.dry_run = false) (hmid : runMid cfg inp now fs = .ok m) :
    ∃ raw ds, (runSync cfg inp now fs).2.indexFile = some raw ∧ raw.days = some ds ∧
      ∀ d, d ∈ ds ↔ (_is_day d = true ∧
        d ∈ (runSync cfg inp now fs).2.bucketDir.map Prod.fst) := by
  have hrun : runSync cfg inp now fs = (.ok (), writeFS cfg now fs m) := by
    simp [runSync, hmid, hdry]
  rw [hrun]
  unfold writeFS
  dsimp only
  refine ⟨_, _, rfl, rfl, fun d => ?_⟩
  simp only [_index_doc]
  rw [mem_sortDescStr]
  unfold dayFilesOf
  rw [mem_dedupF, List.mem_filter]
  tauto

/-- Concrete fixtures for the C7 witness: a store holding one bucket file for
    2024-01-09, an index also referencing the file-less 2024-01-08, and an empty
    upstream. -/
def day7w : DayDoc :=
  { date := "2024-01-09"
    items := [{ title := "t", url := "https://github.com/Org/R/pull/1", tags := [],
                summary := none }] }

def index7wraw : IndexRaw :=
  { schema := some "./index.schema.json", title := some "Daily Updates"
    subtitle := some "", initial_open_days := some 3, page_size_days := some 20
    days := some ["2024-01-08", "2024-01-09"] }

def fs7w : FS :=
  { stateFile := none, indexFile := some index7wraw,
    bucketDir := [("2024-01-09", some day7w)] }

def inp7w : Inputs :=
  { allowed_logins := [], pr_search := .ok [], commit_search := .ok [] }

def load7w : LoadOut :=
  { index := { schema := "./index.schema.json", title := "Daily Updates", subtitle := ""
               initial_open_days := 3, page_size_days := 20
               days := ["2024-01-09", "2024-01-08"] }
    daily := [("2024-01-09", day7w.items), ("2024-01-08", [])]
    existing_urls := ["https://github.com/Org/R/pull/1"] }

def mid7w : Mid :=
  { last_pr := -1209600, last_cm := -1209600, load := load7w
    pr := ([], 0, -1209600), cm := ([], 0, -1209600) }

/-- Witness for C7: on the concrete store the written index lists exactly
    `2024-01-09` — the one existing bucket file — and drops the file-less
    `2024-01-08`. -/
theorem index_completeness_witness :
    ∃ raw ds, (runSync cfg2w inp7w 0 fs7w).2.indexFile = some raw ∧
      raw.days = some ds ∧ ("2024-01-09" ∈ ds ∧ "2024-01-08" ∉ ds) := by
  obtain ⟨raw, ds, h1, h2, h3⟩ := index_completeness cfg2w inp7w 0 fs7w mid7w rfl (by decide)
  refine ⟨raw, ds, h1, h2, ?_, ?_⟩
  · rw [h3]
    constructor
    · decide
    · rw [h1] at *
      simp only [runSync, (by decide : runMid cfg2w inp7w 0 fs7w = .ok mid7w)] at *
      decide
  · rw [h3]
    rintro ⟨-, hmem⟩
    revert hmem
    simp only [runSync, (by decide : runMid cfg2w inp7w 0 fs7w = .ok mid7w)]
    decide

/-! ## C4: index recomputation rule -/

/-- The day list as the claim words it (refinement comparison definition, following the
    spec: "the set-union of the dates of all bucket files actually present on disk …
    union every day the in-memory index already referenced, sorted descending"). -/
def index_days_per_claim (filesPresent inMemoryDays : List String) : List String :=
  sortDescStr (dedupF (filesPresent ++ inMemoryDays))

/-- C4 (amended): at the end of every successful non-dry run, the written index's day
    list is exactly the day-named bucket file stems present on disk after the bucket
    writes, sorted descending — the in-memory index's day list does not contribute: a
    day it references with no bucket file on disk is not listed. -/
theorem index_recomputation (cfg : Config) (inp : Inputs) (now : Int) (fs : FS)
    (m : Mid) (hdry : cfg.dry_run = false) (hmid : runMid cfg inp now fs = .ok m) :
    ∃ raw, (runSync cfg inp now fs).2.indexFile = some raw ∧
      raw.days = some (sortDescStr (dayFilesOf
        (writeBuckets fs (mergeStep m.load.daily m.load.existing_urls
          (m.pr.1 ++ m.cm.1))))) ∧
      ∀ ds, raw.days = some ds →
        ∀ d ∈ m.load.index.days,
          d ∉ (writeBuckets fs (mergeStep m.load.daily m.load.existing_urls
            (m.pr.1 ++ m.cm.1))).bucketDir.map Prod.fst → d ∉ ds := by
  have hrun : runSync cfg inp now fs = (.ok (), writeFS cfg now fs m) := by
    simp [runSync, hmid, hdry]
  rw [hrun]
  unfold writeFS
  dsimp only
  refine ⟨_, rfl, rfl, fun ds hds d _ hnof hmem => ?_⟩
  cases hds
  simp only [_index_doc] at hmem
  rw [mem_sortDescStr] at hmem
  unfold dayFilesOf at hmem
  rw [mem_dedupF, List.mem_filter] at hmem
  exact hnof hmem.1

/-- Concrete fixtures for the C4 counterexample and witness: the index references
    2024-01-01, no bucket file exists, the upstream is empty. -/
def index4x : IndexRaw :=
  { schema := some "./index.schema.json", title := some "Daily Updates"
    subtitle := some "", initial_open_days := some 3, page_size_days := some 20
    days := some ["2024-01-01"] }

def fs4x : FS :=
  { stateFile := none, indexFile := some index4x, bucketDir := [] }

def inp4x : Inputs :=
  { allowed_logins := [], pr_search := .ok [], commit_search := .ok [] }

/-- C4 (counterexample): with the index referencing day 2024-01-01, no bucket file on
    disk and nothing touched, the in-memory day list is `["2024-01-01"]`, the claim's
    set-union formula yields `["2024-01-01"]`, but the run writes an index whose day
    list is `[]` — the in-memory days are not unioned in. -/
theorem index_recomputation_counterexample :
    ((loadStore fs4x).map (fun L => L.index.days)) = .ok ["2024-01-01"] ∧
    ((runSync cfg2w inp4x 0 fs4x).2.indexFile.map IndexRaw.days) = some (some []) ∧
    index_days_per_claim
      ((fs4x.bucketDir.map Prod.fst).filter (fun s => _is_day s)) ["2024-01-01"]
      = ["2024-01-01"] ∧
    (some (some ([] : List String)) : Option (Option (List String)))
      ≠ some (some ["2024-01-01"]) := by
  refine ⟨by decide, by decide, by decide, by decide⟩

def index4xc : IndexDoc :=
  { schema := "./index.schema.json", title := "Daily Updates", subtitle := ""
    initial_open_days := 3, page_size_days := 20, days := ["2024-01-01"] }

def mid4x : Mid :=
  { last_pr := -1209600, last_cm := -1209600
    load := { index := index4xc, daily := [("2024-01-01", [])], existing_urls := [] }
    pr := ([], 0, -1209600), cm := ([], 0, -1209600) }

/-- Witness for the amended C4 on the concrete store: the written day list equals the
    (empty) post-write disk scan and drops the file-less referenced day. -/
theorem index_recomputation_witness :
    ∃ raw, (runSync cfg2w inp4x 0 fs4x).2.indexFile = some raw ∧
      raw.days = some [] ∧ ∀ ds, raw.days = some ds → "2024-01-01" ∉ ds := by
  obtain ⟨raw, h1, h2, h3⟩ := index_recomputation cfg2w inp4x 0 fs4x mid4x rfl (by decide)
  refine ⟨raw, h1, ?_, fun ds hds => ?_⟩
  · rw [h2]; decide
  · exact h3 ds hds "2024-01-01" (by decide) (by decide)

/-! ## C8: enrichment fallback -/

/-- Replace a candidate's enrichment response by a raised call. -/
def killEnrich (c : PRCand) : PRCand := { c with enrich := .error () }

/-- The enrichment-independent projection of an accepted entry: timestamp, day, URL. -/
def projEntry (e : NewEntry) : Int × String × String := (e.1, e.2.1, e.2.2.url)

/-- The enrichment-independent projection of a loop result. -/
def prAcceptProj (r : Except Unit (List NewEntry × Nat × Int)) :
    Except Unit (List (Int × String × String) × Nat × Int) :=
  r.map (fun o => (o.1.map projEntry, o.2.1, o.2.2))

/-- Relation between the verdicts of a candidate and its enrichment-erased copy. -/
def stepRel : StepVerdict → StepVerdict → Prop
  | .accept e1, .accept e2 => projEntry e2 = projEntry e1
  | .skip, .skip => True
  | .halt, .halt => True
  | .fail, .fail => True
  | _, _ => False

/-- Erasing the enrichment response never changes a candidate's verdict kind, nor the
    timestamp, day or URL of an accepted item. -/
theorem prStep_killEnrich (cfg : Config) (A E : List String) (L : Int) (c : PRCand)
    (n : Nat) :
    stepRel (prStep cfg A E L c n) (prStep cfg A E L (killEnrich c) n) := by
  unfold prStep killEnrich
  dsimp only
  repeat' split
  all_goals trivial

/-- The PR loop's acceptance behaviour does not depend on the enrichment responses:
    erasing them all yields the same accepted (timestamp, day, URL) sequence, count,
    cursor, and the same success/failure. -/
theorem prLoop_enrich_independent (cfg : Config) (A E : List String) (L : Int) :
    ∀ (cands : List PRCand) (acc1 acc2 : List NewEntry) (n : Nat) (ms : Int),
      acc1.map projEntry = acc2.map projEntry →
      prAcceptProj (prLoop cfg A E L (cands.map killEnrich) acc1 n ms)
        = prAcceptProj (prLoop cfg A E L cands acc2 n ms) := by
  intro cands
  induction cands with
  | nil =>
    intro acc1 acc2 n ms hacc
    simp [prLoop, prAcceptProj, Except.map, hacc]
  | cons c cs ih =>
    intro acc1 acc2 n ms hacc
    have hk := prStep_killEnrich cfg A E L c n
    simp only [List.map_cons, prLoop]
    cases hv : prStep cfg A E L c n with
    | skip =>
      rw [hv] at hk
      cases hvk : prStep cfg A E L (killEnrich c) n <;> rw [hvk] at hk <;>
        first
          | exact hk.elim
          | exact ih _ _ _ _ hacc
    | halt =>
      rw [hv] at hk
      cases hvk : prStep cfg A E L (killEnrich c) n <;> rw [hvk] at hk <;>
        first
          | exact hk.elim
          | simp [prAcceptProj, Except.map, hacc]
    | fail =>
      rw [hv] at hk
      cases hvk : prStep cfg A E L (killEnrich c) n <;> rw [hvk] at hk <;>
        exact hk.elim
    | accept e =>
      rw [hv] at hk
      cases hvk : prStep cfg A E L (killEnrich c) n <;> rw [hvk] at hk
      case accept e2 =>
        have hpe : projEntry e2 = projEntry e := hk
        have hts : e2.1 = e.1 := congrArg (fun p : Int × String × String => p.1) hpe
        dsimp only
        rw [hts]
        refine ih _ _ _ _ ?_
        simp [hacc, hpe]
      all_goals exact hk.elim

/-- C8: an enrichment call that raises, or whose content yields no extractable JSON
    object, produces the triple `(None, None, [])`; an object with missing `title` and
    `summary` fields likewise yields no title and no summary; an item built with no
    enriched title and no summary gets the fallback title `"<repo>#<number>: <title>"`
    and no summary field; and the loop's acceptance (URLs, days, timestamps, counts,
    success) is entirely independent of the enrichment responses — an enrichment
    failure never aborts the run. -/
theorem enrichment_fallback :
    (∀ (b : Bool) (e : Except Unit (Option (List (String × JVal)))),
        e = .error () ∨ e = .ok none → enrichOutcome b e = (none, none, [])) ∧
    (∀ o : List (String × JVal),
        (jget o "title" = none → (summarizeOutcome (some o)).1 = none) ∧
        (jget o "summary" = none → (summarizeOutcome (some o)).2.1 = none)) ∧
    (∀ (url repo : String) (number : Nat) (title : String) (extra : List String),
        (buildPrItem url repo number title none none extra).title
          = s!"{repo}#{number}: {title}" ∧
        (buildPrItem url repo number title none none extra).summary = none) ∧
    (∀ (cfg : Config) (A E : List String) (L : Int) (cands : List PRCand)
        (acc : List NewEntry) (n : Nat) (ms : Int),
        prAcceptProj (prLoop cfg A E L (cands.map killEnrich) acc n ms)
          = prAcceptProj (prLoop cfg A E L cands acc n ms)) := by
  refine ⟨?_, ?_, ?_, ?_⟩
  · rintro b e (rfl | rfl) <;> cases b <;> simp [enrichOutcome, summarizeOutcome]
  · intro o
    constructor
    · intro h; simp [summarizeOutcome, h]
    · intro h; simp [summarizeOutcome, h]
  · intro url repo number title extra
    exact ⟨rfl, rfl⟩
  · intro cfg A E L cands acc n ms
    exact prLoop_enrich_independent cfg A E L cands acc acc n ms rfl

/-- Concrete fixture for the C8 witness: a candidate whose enrichment succeeded with a
    title and summary, against its enrichment-erased copy. -/
def cand8w : PRCand :=
  { html_url := "https://github.com/Org/R/pull/3"
    fetch := .ok { merged_at := some (.ok 150), user_login := some "u", title := "Orig" }
    digest := .ok ()
    enrich := .ok (some [("title", .str "Nice"), ("summary", .str "S"), ("tags", .arr [some "x"])]) }

/-- Witness for C8: a raised enrichment yields the empty triple, the fallback-built
    item carries the auto-generated title and no summary, and on the concrete candidate
    list the enrichment-erased loop accepts the same URL/day/timestamp. -/
theorem enrichment_fallback_witness :
    enrichOutcome true (Except.error ()) = (none, none, []) ∧
    (buildPrItem "https://github.com/Org/R/pull/3" "R" 3 "Orig" none none []).title
      = "R#3: Orig" ∧
    (buildPrItem "https://github.com/Org/R/pull/3" "R" 3 "Orig" none none []).summary
      = none ∧
    prAcceptProj (prLoop cfg2w [] [] 100 ([cand8w].map killEnrich) [] 0 100)
      = prAcceptProj (prLoop cfg2w [] [] 100 [cand8w] [] 0 100) := by
  refine ⟨enrichment_fallback.1 true _ (Or.inl rfl), ?_, ?_, enrichment_fallback.2.2.2 cfg2w [] [] 100 [cand8w] [] 0 100⟩
  · rw [(enrichment_fallback.2.2.1 "https://github.com/Org/R/pull/3" "R" 3 "Orig" []).1]
    decide
  · exact (enrichment_fallback.2.2.1 "https://github.com/Org/R/pull/3" "R" 3 "Orig" []).2

/-! ## C1: URL uniqueness -/

/-- All item URLs (stripped) across every bucket of a store. -/
def storeUrls (daily : List (String × List Item)) : List String :=
  daily.flatMap (fun p => p.2.map (fun it => strTrim it.url))

theorem storeUrls_nil : storeUrls [] = [] := rfl

theorem storeUrls_cons (p : String × List Item) (rest : List (String × List Item)) :
    storeUrls (p :: rest) = p.2.map (fun it => strTrim it.url) ++ storeUrls rest := rfl

/-- The per-day insert scan: the returned `existing_urls`/`added_urls` extend the given
    ones by exactly the inserted URLs, which are mutually distinct, new, and
    non-empty. -/
theorem scanInserts_spec :
    ∀ (items : List Item) (ex ad : List String),
      (scanInserts ex ad items).2.1
        = ex ++ ((scanInserts ex ad items).1.map (fun it => strTrim it.url)) ∧
      (scanInserts ex ad items).2.2
        = ad ++ ((scanInserts ex ad items).1.map (fun it => strTrim it.url)) ∧
      ((scanInserts ex ad items).1.map (fun it => strTrim it.url)).Nodup ∧
      (∀ it ∈ (scanInserts ex ad items).1, strTrim it.url ∉ ex ∧ strTrim it.url ≠ "") := by
  intro items
  induction items with
  | nil => intro ex ad; simp [scanInserts]
  | cons it rest ih =>
    intro ex ad
    by_cases hskip : strTrim it.url = "" ∨ strTrim it.url ∈ ex
    · simpa [scanInserts, hskip] using
        ⟨(ih ex ad).1, (ih ex ad).2.1, (ih ex ad).2.2.1, (ih ex ad).2.2.2⟩
    · push_neg at hskip
      obtain ⟨hne, hnotin⟩ := hskip
      have hcond : ¬ (strTrim it.url = "" ∨ strTrim it.url ∈ ex) := by
        push_neg; exact ⟨hne, hnotin⟩
      obtain ⟨ih1, ih2, ih3, ih4⟩ := ih (ex ++ [strTrim it.url]) (ad ++ [strTrim it.url])
      simp only [scanInserts, hcond, if_false, List.map_cons]
      refine ⟨?_, ?_, ?_, ?_⟩
      · rw [ih1, List.append_assoc]
        rfl
      · rw [ih2, List.append_assoc]
        rfl
      · refine List.nodup_cons.mpr ⟨?_, ih3⟩
        intro hmem
        obtain ⟨it2, hit2, hurl⟩ := List.mem_map.mp hmem
        have := (ih4 it2 hit2).1
        rw [hurl] at this
        exact this (by simp)
      · intro x hx
        rcases List.mem_cons.mp hx with rfl | hx
        · exact ⟨hnotin, hne⟩
        · have := ih4 x hx
          exact ⟨fun hmem => this.1 (by simp [hmem]), this.2⟩

/-- URLs of a looked-up bucket are store URLs. -/
theorem urls_getAssocD_subset (m : List (String × List Item)) (k : String) :
    ∀ u ∈ (getAssocD m k []).map (fun it => strTrim it.url), u ∈ storeUrls m := by
  induction m with
  | nil => simp [getAssocD]
  | cons p rest ih =>
    intro u hu
    rw [storeUrls_cons]
    unfold getAssocD at hu
    by_cases hk : p.1 = k
    · simp only [hk, if_true] at hu
      exact List.mem_append.mpr (Or.inl hu)
    · simp only [hk, if_false] at hu
      exact List.mem_append.mpr (Or.inr (ih u hu))

/-- URLs after a bucket update come from the new bucket or the old store. -/
theorem storeUrls_setAssoc_subset (k : String) (v : List Item) :
    ∀ (m : List (String × List Item)), ∀ u ∈ storeUrls (setAssoc m k v),
      u ∈ v.map (fun it => strTrim it.url) ∨ u ∈ storeUrls m := by
  intro m
  induction m with
  | nil =>
    intro u hu
    simp only [setAssoc, storeUrls_cons, storeUrls_nil, List.append_nil] at hu
    exact Or.inl hu
  | cons p rest ih =>
    intro u hu
    unfold setAssoc at hu
    by_cases hk : p.1 = k
    · simp only [hk, if_true, storeUrls_cons] at hu
      rcases List.mem_append.mp hu with hu | hu
      · exact Or.inl hu
      · exact Or.inr (by rw [storeUrls_cons]; exact List.mem_append.mpr (Or.inr hu))
    · simp only [hk, if_false, storeUrls_cons] at hu
      rcases List.mem_append.mp hu with hu | hu
      · exact Or.inr (by rw [storeUrls_cons]; exact List.mem_append.mpr (Or.inl hu))
      · rcases ih u hu with h | h
        · exact Or.inl h
        · exact Or.inr (by rw [storeUrls_cons]; exact List.mem_append.mpr (Or.inr h))

/-- Core preservation step: updating day `k` with fresh, mutually-distinct inserts
    prepended to its filtered old bucket keeps the store's URL list duplicate-free. -/
theorem storeUrls_setAssoc_nodup (k : String) (ins : List Item) :
    ∀ (m : List (String × List Item)),
      (storeUrls m).Nodup →
      ((ins.map (fun it => strTrim it.url)).Nodup) →
      (∀ u ∈ ins.map (fun it => strTrim it.url), u ∉ storeUrls m) →
      (storeUrls (setAssoc m k
        (ins ++ (getAssocD m k []).filter
          (fun it => strTrim it.url ∉ ins.map (fun it2 => strTrim it2.url))))).Nodup := by
  intro m
  induction m with
  | nil =>
    intro _ hins _
    simp only [setAssoc, getAssocD, List.filter_nil, List.append_nil, storeUrls_cons,
      storeUrls_nil]
    simpa using hins
  | cons p rest ih =>
    intro hnd hins hfresh
    rw [storeUrls_cons] at hnd
    rw [List.nodup_append] at hnd
    obtain ⟨hvs, hrest, hdisj⟩ := hnd
    by_cases hk : p.1 = k
    · unfold setAssoc getAssocD
      simp only [hk, if_true]
      rw [storeUrls_cons]
      simp only [List.map_append]
      rw [List.nodup_append, List.nodup_append]
      refine ⟨⟨hins, ?_, ?_⟩, hrest, ?_⟩
      · exact hvs.sublist (List.Sublist.map _ (List.filter_sublist p.2))
      · intro u hu hu2
        obtain ⟨it2, hit2, hurl⟩ := List.mem_map.mp hu2
        rw [List.mem_filter] at hit2
        have := hit2.2
        simp only [decide_eq_true_eq] at this
        exact this (hurl ▸ hu)
      · intro u hu
        rcases List.mem_append.mp hu with hu | hu
        · exact fun hmem => hfresh u hu
            (by rw [storeUrls_cons]; exact List.mem_append.mpr (Or.inr hmem))
        · obtain ⟨it2, hit2, hurl⟩ := List.mem_map.mp hu
          rw [List.mem_filter] at hit2
          exact fun hmem => hdisj (List.mem_map.mpr ⟨it2, hit2.1, hurl⟩) hmem
    · unfold setAssoc getAssocD
      simp only [hk, if_false]
      rw [storeUrls_cons, List.nodup_append]
      refine ⟨hvs, ?_, ?_⟩
      · refine ih hrest hins ?_
        intro u hu hmem
        exact hfresh u hu (by rw [storeUrls_cons]; exact List.mem_append.mpr (Or.inr hmem))
      · intro u hu hmem
        rcases storeUrls_setAssoc_subset k _ rest u hmem with h | h
        · simp only [List.map_append] at h
          rcases List.mem_append.mp h with h | h
          · exact hfresh u h (by rw [storeUrls_cons]; exact List.mem_append.mpr (Or.inl hu))
          · obtain ⟨it2, hit2, hurl⟩ := List.mem_map.mp h
            rw [List.mem_filter] at hit2
            exact hdisj hu (urls_getAssocD_subset rest k u (List.mem_map.mpr ⟨it2, hit2.1, hurl⟩))
        · exact hdisj hu h

/-- The invariant threaded through the merge loop: the store URLs are duplicate-free
    and all recorded in `existing_urls`, which also still covers the initial URL set
    `ex0`; every URL added so far was new relative to `ex0`. -/
def MergeInv (ex0 : List String) (st : MergeOut) : Prop :=
  (storeUrls st.daily).Nodup ∧
  (∀ u ∈ storeUrls st.daily, u ∈ st.existing_urls) ∧
  (∀ u ∈ ex0, u ∈ st.existing_urls) ∧
  (∀ u ∈ st.added_urls, u ∉ ex0)

/-- One day's merge preserves the invariant. -/
theorem mergeDay_inv (ex0 : List String) (st : MergeOut) (day : String)
    (items : List Item) (hinv : MergeInv ex0 st) :
    MergeInv ex0 (mergeDay st day items) := by
  obtain ⟨hnd, hcov, hex0, hadded⟩ := hinv
  obtain ⟨hs1, hs2, hs3, hs4⟩ := scanInserts_spec items st.existing_urls st.added_urls
  unfold mergeDay
  by_cases hemp : (scanInserts st.existing_urls st.added_urls items).1 = []
  · simp only [hemp, if_true]
    refine ⟨hnd, ?_, ?_, ?_⟩
    · intro u hu
      rw [hs1, hemp]
      simpa using hcov u hu
    · intro u hu
      rw [hs1, hemp]
      simpa using hex0 u hu
    · intro u hu
      rw [hs2, hemp] at hu
      simp only [List.map_nil, List.append_nil] at hu
      exact hadded u hu
  · simp only [hemp, if_false]
    have hfresh : ∀ u ∈ (scanInserts st.existing_urls st.added_urls items).1.map
        (fun it => strTrim it.url), u ∉ storeUrls st.daily := by
      intro u hu hmem
      obtain ⟨it2, hit2, hurl⟩ := List.mem_map.mp hu
      exact (hs4 it2 hit2).1 (hurl ▸ hcov u hmem)
    refine ⟨?_, ?_, ?_, ?_⟩
    · exact storeUrls_setAssoc_nodup day _ st.daily hnd hs3 hfresh
    · intro u hu
      rw [hs1]
      rcases storeUrls_setAssoc_subset day _ st.daily u hu with h | h
      · simp only [List.map_append] at h
        rcases List.mem_append.mp h with h | h
        · exact List.mem_append.mpr (Or.inr h)
        · obtain ⟨it2, hit2, hurl⟩ := List.mem_map.mp h
          rw [List.mem_filter] at hit2
          exact List.mem_append.mpr (Or.inl (hcov u
            (urls_getAssocD_subset st.daily day u (List.mem_map.mpr ⟨it2, hit2.1, hurl⟩))))
      · exact List.mem_append.mpr (Or.inl (hcov u h))
    · intro u hu
      rw [hs1]
      exact List.mem_append.mpr (Or.inl (hex0 u hu))
    · intro u hu
      rw [hs2] at hu
      rcases List.mem_append.mp hu with hu | hu
      · exact hadded u hu
      · obtain ⟨it2, hit2, hurl⟩ := List.mem_map.mp hu
        intro hmem
        exact (hs4 it2 hit2).1 (hurl ▸ hex0 u hmem)

/-- The whole grouped merge fold preserves the invariant. -/
theorem mergeFold_inv (ex0 : List String) :
    ∀ (g : List (String × List (Int × Item))) (st : MergeOut),
      MergeInv ex0 st →
      MergeInv ex0 (g.foldl (fun st2 p =>
        mergeDay st2 p.1 ((sortDescBy (fun q => q.1) p.2).map Prod.snd)) st) := by
  intro g
  induction g with
  | nil => intro st h; exact h
  | cons p rest ih =>
    intro st h
    exact ih _ (mergeDay_inv ex0 st p.1 _ h)


/-- The inner URL-collecting fold keeps the accumulator and reaches every non-empty
    URL of the items. -/
theorem collectInner_covers :
    ∀ (items : List Item) (acc : List String) (u : String),
      (u ∈ acc ∨ (u ∈ items.map (fun it => strTrim it.url) ∧ u ≠ "")) →
      u ∈ items.foldl (fun acc2 it =>
        let url := strTrim it.url
        if url ≠ "" ∧ url ∉ acc2 then acc2 ++ [url] else acc2) acc := by
  intro items
  induction items with
  | nil =>
    intro acc u h
    rcases h with h | ⟨h, -⟩
    · simpa using h
    · simp at h
  | cons it rest ih =>
    intro acc u h
    simp only [List.foldl_cons]
    rcases h with h | ⟨h, hne⟩
    · refine ih _ u (Or.inl ?_)
      dsimp only
      split
      · exact List.mem_append.mpr (Or.inl h)
      · exact h
    · obtain ⟨x, hx, hxe⟩ := List.mem_map.mp h
      rcases List.mem_cons.mp hx with rfl | hx2
      · subst hxe
        refine ih _ _ (Or.inl ?_)
        dsimp only
        split
        · exact List.mem_append.mpr (Or.inr (by simp))
        · rename_i hcond
          push_neg at hcond
          exact hcond hne
      · exact ih _ u (Or.inr ⟨List.mem_map.mpr ⟨x, hx2, hxe⟩, hne⟩)

/-- The URL-collecting store fold reaches the accumulator and every non-empty store
    URL. -/
theorem collectOuter_covers :
    ∀ (d : List (String × List Item)) (acc : List String) (u : String),
      (u ∈ acc ∨ (u ∈ storeUrls d ∧ u ≠ "")) →
      u ∈ d.foldl (fun acc2 p =>
        p.2.foldl (fun acc3 it =>
          let url := strTrim it.url
          if url ≠ "" ∧ url ∉ acc3 then acc3 ++ [url] else acc3) acc2) acc := by
  intro d
  induction d with
  | nil =>
    intro acc u h
    rcases h with h | ⟨h, -⟩
    · simpa using h
    · simp [storeUrls_nil] at h
  | cons p rest ih =>
    intro acc u h
    simp only [List.foldl_cons]
    rcases h with h | ⟨h, hne⟩
    · exact ih _ u (Or.inl (collectInner_covers p.2 acc u (Or.inl h)))
    · rw [storeUrls_cons] at h
      rcases List.mem_append.mp h with h | h
      · exact ih _ u (Or.inl (collectInner_covers p.2 acc u (Or.inr ⟨h, hne⟩)))
      · exact ih _ u (Or.inr ⟨h, hne⟩)

/-- Every non-empty store URL is collected into `existing_urls`. -/
theorem collectUrls_covers (daily : List (String × List Item)) (u : String)
    (hu : u ∈ storeUrls daily) (hne : u ≠ "") : u ∈ collectUrls daily :=
  collectOuter_covers daily [] u (Or.inr ⟨hu, hne⟩)

/-- Successful load inversion: the recorded URLs are the collector's output, and every
    loaded item survived the coercion filter (non-empty stripped URL and title). -/
theorem loadStore_ok_shape (fs : FS) (L : LoadOut) (h : loadStore fs = .ok L) :
    L.existing_urls = collectUrls L.daily ∧
    ∀ p ∈ L.daily, ∀ it ∈ p.2, strTrim it.url ≠ "" ∧ strTrim it.title ≠ "" := by
  unfold loadStore at h
  dsimp only at h
  cases hc : _coerce_daily_updates_index
      (match fs.indexFile with | some r => r | none => defaultIndexRaw) with
  | error e => rw [hc] at h; cases h
  | ok idx =>
    rw [hc] at h
    dsimp only at h
    cases h
    refine ⟨rfl, ?_⟩
    intro p hp it hit
    obtain ⟨day, -, rfl⟩ := List.mem_map.mp hp
    revert hit
    dsimp only
    split
    · intro hit; cases hit
    · intro hit; cases hit
    · intro hit
      rw [_coerce_daily_day, List.mem_filter] at hit
      have h2 := hit.2
      simp only [decide_eq_true_eq] at h2
      exact h2

/-- C1: the store load records every URL of the loaded store in `existing_urls`; and
    for every store satisfying the uniqueness invariant whose URLs are all recorded in
    `existing_urls`, the merge step preserves the invariant — after it, every URL again
    appears in at most one day bucket (and never twice within one) — and every URL it
    adds was not previously recorded anywhere, i.e. a candidate whose URL is already in
    the store is skipped. -/
theorem url_uniqueness :
    (∀ (fs : FS) (L : LoadOut), loadStore fs = .ok L →
        ∀ u ∈ storeUrls L.daily, u ∈ L.existing_urls) ∧
    (∀ (daily : List (String × List Item)) (existing : List String)
        (new_items : List NewEntry),
        (storeUrls daily).Nodup →
        (∀ u ∈ storeUrls daily, u ∈ existing) →
        (storeUrls (mergeStep daily existing new_items).daily).Nodup ∧
        ∀ u ∈ (mergeStep daily existing new_items).added_urls, u ∉ existing) := by
  constructor
  · intro fs L h u hu
    obtain ⟨hex, hwf⟩ := loadStore_ok_shape fs L h
    rw [hex]
    refine collectUrls_covers _ u hu ?_
    obtain ⟨p, hp, hu2⟩ := List.mem_flatMap.mp hu
    obtain ⟨it, hit, hurl⟩ := List.mem_map.mp hu2
    exact hurl ▸ (hwf p hp it hit).1
  · intro daily existing new_items hnd hex
    unfold mergeStep
    by_cases hempty : new_items = []
    · simp only [hempty, if_true]
      exact ⟨hnd, by simp⟩
    · simp only [hempty, if_false]
      have hinv : MergeInv existing
          { daily := daily, existing_urls := existing, added_urls := [], touched := [] } :=
        ⟨hnd, hex, fun u hu => hu, by simp⟩
      exact ⟨(mergeFold_inv existing _ _ hinv).1, (mergeFold_inv existing _ _ hinv).2.2.2⟩

/-- Concrete fixtures for the C1 witness: a one-bucket store already holding a URL, and
    two new entries — one duplicating that URL (skipped), one new (inserted into
    another day). -/
def item1w : Item :=
  { title := "t1", url := "https://github.com/Org/R/pull/1", tags := [], summary := none }

def item2w : Item :=
  { title := "t2", url := "https://github.com/Org/R/pull/2", tags := [], summary := none }

def store1w : List (String × List Item) := [("2024-01-01", [item1w])]

def new1w : List NewEntry :=
  [(100, "2024-01-02", item1w), (200, "2024-01-02", item2w)]

/-- Witness for C1: on the concrete store the merge keeps the URL list duplicate-free
    and only adds the previously unrecorded URL. -/
theorem url_uniqueness_witness :
    (storeUrls (mergeStep store1w ["https://github.com/Org/R/pull/1"] new1w).daily).Nodup ∧
    ∀ u ∈ (mergeStep store1w ["https://github.com/Org/R/pull/1"] new1w).added_urls,
      u ∉ ["https://github.com/Org/R/pull/1"] :=
  url_uniqueness.2 store1w ["https://github.com/Org/R/pull/1"] new1w
    (by decide) (by decide)

/-! ## C5: idempotence of a no-op re-run -/

/-- A coerced index has a non-blank title. -/
theorem coerce_ok_title (raw : IndexRaw) (idx : IndexDoc)
    (h : _coerce_daily_updates_index raw = .ok idx) : strTrim idx.title ≠ "" := by
  unfold _coerce_daily_updates_index at h
  repeat' split at h
  all_goals cases h
  assumption

/-- A loaded store's in-memory index has a non-blank title. -/
theorem loadStore_ok_title (fs : FS) (L : LoadOut) (h : loadStore fs = .ok L) :
    strTrim L.index.title ≠ "" := by
  unfold loadStore at h
  dsimp only at h
  cases hc : _coerce_daily_updates_index
      (match fs.indexFile with | some r => r | none => defaultIndexRaw) with
  | error e => rw [hc] at h; cases h
  | ok idx =>
    rw [hc] at h
    dsimp only at h
    cases h
    exact coerce_ok_title _ idx hc

/-- Coercion of a written index document succeeds and reproduces its fields, with the
    day list normalised. -/
theorem coerce_indexToRaw (D : IndexDoc) (hT : strTrim D.title ≠ "") :
    _coerce_daily_updates_index (indexToRaw D) =
      .ok { schema := D.schema, title := D.title, subtitle := D.subtitle,
            initial_open_days := D.initial_open_days, page_size_days := D.page_size_days,
            days := normDays D.days } := by
  unfold _coerce_daily_updates_index indexToRaw
  simp [hT]

/-- `_index_doc` is stable: applying it to its own output (with any day list) gives the
    same document as applying it to the original, because every defaulted field is
    already non-falsy. -/
theorem index_doc_idem (I : IndexDoc) (ds0 d2 ds : List String) :
    _index_doc { _index_doc I ds0 with days := d2 } ds = _index_doc I ds := by
  unfold _index_doc
  dsimp only
  have e1 : ¬ ("./index.schema.json" : String) = "" := by decide
  have e2 : ¬ ("Daily Updates" : String) = "" := by decide
  by_cases h1 : I.schema = "" <;> by_cases h2 : I.title = "" <;>
    by_cases h3 : I.initial_open_days = 0 <;> by_cases h4 : I.page_size_days = 0 <;>
    simp [h1, h2, h3, h4, e1, e2]

/-- The write stage of a run that accepted nothing: no bucket is touched, the index is
    rewritten from the unchanged directory scan, and the state is saved with unchanged
    cursors. -/
theorem writeFS_noop (cfg : Config) (now : Int) (fs : FS) (m : Mid)
    (hpr : m.pr.1 = []) (hcm : m.cm.1 = []) :
    writeFS cfg now fs m =
      { stateFile := some (_save_state m.last_pr m.last_cm now [] cfg.openai_enabled
          (if cfg.openai_enabled then some cfg.openai_model else none)
          (if cfg.openai_enabled then some cfg.openai_base_url else none)),
        indexFile := some (indexToRaw (_index_doc m.load.index
          (sortDescStr (dayFilesOf fs)))),
        bucketDir := fs.bucketDir } := by
  unfold writeFS
  dsimp only
  rw [hpr, hcm]
  rfl

/-- `dayFilesOf` depends only on the bucket directory. -/
theorem dayFilesOf_congr (fs1 fs2 : FS) (h : fs1.bucketDir = fs2.bucketDir) :
    dayFilesOf fs1 = dayFilesOf fs2 := by
  unfold dayFilesOf
  rw [h]

/-- Loading a store whose index file is a written index document succeeds, and the
    in-memory index it builds is that document with a recomputed day list. -/
theorem loadStore_of_written (fs : FS) (D : IndexDoc)
    (hidx : fs.indexFile = some (indexToRaw D)) (hT : strTrim D.title ≠ "") :
    ∃ L2 d2, loadStore fs = .ok L2 ∧ L2.index = { D with days := d2 } := by
  unfold loadStore
  rw [hidx]
  dsimp only
  rw [coerce_indexToRaw D hT]
  exact ⟨_, _, rfl, rfl⟩

/-- C5: running the sync twice in a row with an empty upstream result set (and no dry
    run) succeeds, leaves every bucket file and the index file with identical content
    after the second run, and the state file after the second run differs from the
    first only in `last_run_at`; in particular the cursors are written back unchanged
    on such runs. -/
theorem noop_rerun_idempotent (cfg : Config) (inp : Inputs) (fs : FS) (now1 now2 : Int)
    (hdry : cfg.dry_run = false)
    (hpr : inp.pr_search = .ok []) (hcm : inp.commit_search = .ok [])
    (hok : (runSync cfg inp now1 fs).1 = .ok ()) :
    (runSync cfg inp now2 (runSync cfg inp now1 fs).2).1 = .ok () ∧
    (runSync cfg inp now2 (runSync cfg inp now1 fs).2).2.bucketDir
      = (runSync cfg inp now1 fs).2.bucketDir ∧
    (runSync cfg inp now2 (runSync cfg inp now1 fs).2).2.indexFile
      = (runSync cfg inp now1 fs).2.indexFile ∧
    ∃ st1, (runSync cfg inp now1 fs).2.stateFile = some st1 ∧
      (runSync cfg inp now2 (runSync cfg inp now1 fs).2).2.stateFile
        = some { st1 with last_run_at := now2 } := by
  cases hm1 : runMid cfg inp now1 fs with
  | error e => simp [runSync, hm1] at hok
  | ok m1 =>
  obtain ⟨hload1, -, -, ⟨prs, hprs, hprl⟩, ⟨cms, hcms, hcml⟩⟩ :=
    runMid_ok cfg inp now1 fs m1 hm1
  rw [hpr] at hprs
  injection hprs with hprs
  subst hprs
  have hcmsnil : cms = [] := by
    by_cases hic : cfg.include_commits
    · rw [if_pos hic, hcm] at hcms
      exact (Except.ok.inj hcms).symm
    · rw [if_neg hic] at hcms
      exact (Except.ok.inj hcms).symm
  subst hcmsnil
  simp only [prLoop] at hprl
  simp only [commitLoop] at hcml
  have hmpr : m1.pr = ([], 0, m1.last_pr) := (Except.ok.inj hprl).symm
  have hmcm : m1.cm = ([], 0, m1.last_cm) := (Except.ok.inj hcml).symm
  have hrun1 : runSync cfg inp now1 fs = (.ok (), writeFS cfg now1 fs m1) := by
    simp [runSync, hm1, hdry]
  have hw1 := writeFS_noop cfg now1 fs m1 (by rw [hmpr]) (by rw [hmcm])
  have hT0 : strTrim m1.load.index.title ≠ "" := loadStore_ok_title fs m1.load hload1
  have hT1 : strTrim (_index_doc m1.load.index (sortDescStr (dayFilesOf fs))).title
      ≠ "" := by
    unfold _index_doc
    dsimp only
    by_cases h : m1.load.index.title = ""
    · simp only [h, if_true]
      decide
    · simp only [h, if_false]
      exact hT0
  obtain ⟨L2, d2, hload2, hidx2⟩ :=
    loadStore_of_written (writeFS cfg now1 fs m1) _ (by rw [hw1]) hT1
  have hcms2 : (if cfg.include_commits then inp.commit_search else .ok [])
      = .ok ([] : List CommitCand) := by
    by_cases hic : cfg.include_commits
    · rw [if_pos hic, hcm]
    · rw [if_neg hic]
  have hm2 : runMid cfg inp now2 (writeFS cfg now1 fs m1) = .ok
      { last_pr := (_load_state (writeFS cfg now1 fs m1) cfg.bootstrap_days now2).1,
        last_cm := (_load_state (writeFS cfg now1 fs m1) cfg.bootstrap_days now2).2,
        load := L2,
        pr := ([], 0, (_load_state (writeFS cfg now1 fs m1) cfg.bootstrap_days now2).1),
        cm := ([], 0, (_load_state (writeFS cfg now1 fs m1) cfg.bootstrap_days now2).2) } := by
    unfold runMid
    dsimp only
    rw [hload2, hpr, hcms2]
    rfl
  have hrun2 : runSync cfg inp now2 (writeFS cfg now1 fs m1)
      = (.ok (), writeFS cfg now2 (writeFS cfg now1 fs m1)
          { last_pr := (_load_state (writeFS cfg now1 fs m1) cfg.bootstrap_days now2).1,
            last_cm := (_load_state (writeFS cfg now1 fs m1) cfg.bootstrap_days now2).2,
            load := L2,
            pr := ([], 0, (_load_state (writeFS cfg now1 fs m1) cfg.bootstrap_days now2).1),
            cm := ([], 0, (_load_state (writeFS cfg now1 fs m1) cfg.bootstrap_days now2).2) }) := by
    simp [runSync, hm2, hdry]
  have hw2 := writeFS_noop cfg now2 (writeFS cfg now1 fs m1)
    { last_pr := (_load_state (writeFS cfg now1 fs m1) cfg.bootstrap_days now2).1,
      last_cm := (_load_state (writeFS cfg now1 fs m1) cfg.bootstrap_days now2).2,
      load := L2,
      pr := ([], 0, (_load_state (writeFS cfg now1 fs m1) cfg.bootstrap_days now2).1),
      cm := ([], 0, (_load_state (writeFS cfg now1 fs m1) cfg.bootstrap_days now2).2) }
    rfl rfl
  have hls : _load_state (writeFS cfg now1 fs m1) cfg.bootstrap_days now2
      = (m1.last_pr, m1.last_cm) := by
    rw [hw1]
    rfl
  have hbd : (writeFS cfg now1 fs m1).bucketDir = fs.bucketDir := by rw [hw1]
  rw [hrun1]
  dsimp only
  rw [hrun2]
  dsimp only
  refine ⟨rfl, ?_, ?_, ?_⟩
  · rw [hw2, hw1]
  · rw [hw2]
    dsimp only
    rw [hidx2, dayFilesOf_congr _ fs hbd, index_doc_idem, hw1]
  · refine ⟨_save_state m1.last_pr m1.last_cm now1 [] cfg.openai_enabled
        (if cfg.openai_enabled then some cfg.openai_model else none)
        (if cfg.openai_enabled then some cfg.openai_base_url else none), ?_, ?_⟩
    · rw [hw1]
    · rw [hw2]
      dsimp only
      rw [hls]
      rfl

/-- Witness for C5: on the concrete store two consecutive empty-upstream runs agree on
    every bucket file and on the index file, and the state differs only in
    `last_run_at`. -/
theorem noop_rerun_idempotent_witness :
    (runSync cfg2w inp7w 222 (runSync cfg2w inp7w 111 fs7w).2).1 = .ok () ∧
    (runSync cfg2w inp7w 222 (runSync cfg2w inp7w 111 fs7w).2).2.bucketDir
      = (runSync cfg2w inp7w 111 fs7w).2.bucketDir ∧
    (runSync cfg2w inp7w 222 (runSync cfg2w inp7w 111 fs7w).2).2.indexFile
      = (runSync cfg2w inp7w 111 fs7w).2.indexFile ∧
    ∃ st1, (runSync cfg2w inp7w 111 fs7w).2.stateFile = some st1 ∧
      (runSync cfg2w inp7w 222 (runSync cfg2w inp7w 111 fs7w).2).2.stateFile
        = some { st1 with last_run_at := 222 } :=
  noop_rerun_idempotent cfg2w inp7w fs7w 111 222 rfl rfl rfl (by decide)
